import Mathlib

/-!
Verification of the SkyEx ledger core against its natural-language
specification.

The definitions below are a shallow embedding of the Python sources:
  - `db_asyncpg/utils.py`   (amount quantizer),
  - `db_asyncpg/repo.py`    (ledger store: clients, accounts, transactions),
  - `utils/exchange_base.py` (two-leg settlement and edit reconciliation),
  - `utils/undos.py` and `handlers/wallets.py` (undo registry and handler).

Python `Decimal` values are modelled as rationals (finite decimals are a
subset of `ℚ` and every operation used by the code: addition, negation,
half-up quantization, is exact on them).  Database state is modelled as an
explicit `LedgerState`; the `async with con.transaction()` blocks commit
atomically or roll back, so every operation returns the post-state, which is
the unchanged input state on failure.
-/

namespace SkyEx

/-! ### `db_asyncpg/utils.py` -/

/-- Embeds `to_upper`: `(code or "").upper()`, as a character-wise upcase of
the string (currency codes are ASCII). -/
def to_upper (code : String) : String := ⟨code.data.map Char.toUpper⟩

/-- Rounding to the nearest integer, ties away from zero: the integer part of
Python `Decimal.quantize(..., rounding=ROUND_HALF_UP)`. -/
def roundHalfUpInt (x : ℚ) : ℤ :=
  if 0 ≤ x then ⌊x + 1 / 2⌋ else -⌊-x + 1 / 2⌋

/-- Embeds `quantize_amount(value, precision)`:
`Decimal(str(value)).quantize(Decimal(10) ** (-precision), ROUND_HALF_UP)`,
i.e. the multiple of `10 ^ (-precision)` nearest to `value`, ties away from
zero. -/
def quantize_amount (value : ℚ) (precision : ℤ) : ℚ :=
  (roundHalfUpInt (value / (10 : ℚ) ^ (-precision)) : ℚ) * (10 : ℚ) ^ (-precision)

/-! ### Data model (`db_asyncpg/repo.py`)

Rows of the `clients`, `client_accounts` and `transactions` tables.  Only the
columns the verified operations read or write are modelled; `precision` is
nullable in the store (`int(acc["precision"]) if ... is not None else 2`), so
it is an `Option ℤ`. -/

structure Client where
  id : ℕ
  chat_id : ℤ
  name : String
  city : Option String
  is_active : Bool
deriving DecidableEq

structure Account where
  id : ℕ
  client_id : ℕ
  currency_code : String
  precision : Option ℤ
  balance : ℚ
  is_active : Bool
deriving DecidableEq

structure Txn where
  id : ℕ
  client_id : ℕ
  account_id : ℕ
  amount : ℚ
  balance_after : ℚ
  idempotency_key : Option String
deriving DecidableEq

/-- The durable state behind the asyncpg pool.  `next_txn_id` and
`next_client_id` model the `RETURNING id` sequences. -/
structure LedgerState where
  clients : List Client
  accounts : List Account
  txns : List Txn
  next_txn_id : ℕ
  next_client_id : ℕ
deriving DecidableEq

/-! ### Ledger store operations -/

/-- `SELECT id FROM transactions WHERE client_id=$1 AND idempotency_key=$2`
(the whole row is kept for convenience). -/
def findTxnByKey (s : LedgerState) (client_id : ℕ) (key : String) : Option Txn :=
  s.txns.find? fun t => t.client_id == client_id && t.idempotency_key == some key

/-- Step 1 of `_apply_delta`: `if idempotency_key:` — Python truthiness, so a
`None` key and the empty-string key both skip the lookup. -/
def dedupHit (s : LedgerState) (client_id : ℕ) (key : Option String) : Option Txn :=
  match key with
  | none => none
  | some k => if k = "" then none else findTxnByKey s client_id k

/-- `SELECT ... FROM client_accounts WHERE client_id=$1 AND currency_code=$2
AND is_active=TRUE`. -/
def findActiveAccount (s : LedgerState) (client_id : ℕ) (code : String) : Option Account :=
  s.accounts.find? fun a =>
    a.client_id == client_id && a.currency_code == code && a.is_active

/-- `UPDATE client_accounts SET balance=$1 WHERE id=$2`. -/
def updateBalance (accounts : List Account) (aid : ℕ) (nb : ℚ) : List Account :=
  accounts.map fun a => if a.id == aid then { a with balance := nb } else a

/-- Embeds `Repo._apply_delta`.  Returns the post-state (the input state when
the surrounding transaction rolled back) and either the transaction id or the
`KeyError("account not found")` message. -/
def apply_delta (s : LedgerState) (client_id : ℕ) (currency_code : String)
    (amount : ℚ) (idempotency_key : Option String) : LedgerState × Except String ℕ :=
  let code := to_upper currency_code
  match dedupHit s client_id idempotency_key with
  | some t => (s, .ok t.id)
  | none =>
    match findActiveAccount s client_id code with
    | none => (s, .error "account not found")
    | some acc =>
      let prec : ℤ := acc.precision.getD 2
      let qamount := quantize_amount amount prec
      let new_balance := quantize_amount (acc.balance + qamount) prec
      let txn : Txn :=
        { id := s.next_txn_id, client_id := client_id, account_id := acc.id,
          amount := qamount, balance_after := new_balance,
          idempotency_key := idempotency_key }
      ({ s with accounts := updateBalance s.accounts acc.id new_balance,
                txns := s.txns ++ [txn],
                next_txn_id := s.next_txn_id + 1 }, .ok txn.id)

/-- Embeds `Repo.deposit`: passes the amount through unchanged. -/
def deposit (s : LedgerState) (client_id : ℕ) (currency_code : String)
    (amount : ℚ) (idempotency_key : Option String) : LedgerState × Except String ℕ :=
  apply_delta s client_id currency_code amount idempotency_key

/-- Embeds `Repo.withdraw`: negates the amount, then calls `_apply_delta`. -/
def withdraw (s : LedgerState) (client_id : ℕ) (currency_code : String)
    (amount : ℚ) (idempotency_key : Option String) : LedgerState × Except String ℕ :=
  apply_delta s client_id currency_code (-amount) idempotency_key

/-- Embeds `Repo.ensure_client`.  `name` is a non-optional `str` in Python, so
`COALESCE($2, name)` always writes the passed name (even when empty);
`COALESCE($3, city)` keeps the stored city only for a `None` parameter.  The
`SELECT` has no `is_active` filter and the `UPDATE` touches only `name` and
`city`. -/
def ensure_client (s : LedgerState) (chat_id : ℤ) (name : String)
    (city : Option String) : LedgerState × ℕ :=
  match s.clients.find? (fun c => c.chat_id == chat_id) with
  | some row =>
    if (name != "" && row.name != name) || (city.isSome && row.city != city) then
      ({ s with clients := s.clients.map fun c =>
          if c.id == row.id then
            { c with name := name,
                     city := (match city with | some v => some v | none => c.city) }
          else c }, row.id)
    else (s, row.id)
  | none =>
    let newClient : Client :=
      { id := s.next_client_id, chat_id := chat_id, name := name,
        city := city, is_active := true }
    ({ s with clients := s.clients ++ [newClient],
              next_client_id := s.next_client_id + 1 }, s.next_client_id)

/-- Balance of the active account of a client in a currency, as the wallet
views read it. -/
def balanceOf (s : LedgerState) (client_id : ℕ) (code : String) : Option ℚ :=
  (findActiveAccount s client_id code).map Account.balance

/-- The quantization invariant of the spec: every account balance is an exact
integer multiple of `10 ^ (-precision)` for the effective precision of the
account. -/
def quantizedState (s : LedgerState) : Prop :=
  ∀ a ∈ s.accounts, ∃ n : ℤ, a.balance = (n : ℚ) * (10 : ℚ) ^ (-(a.precision.getD 2))

/-! ### Exchange transaction processor (`utils/exchange_base.py`, `process`)

Step 6 of `process`: the two repo legs inside `try`, and the `except` block
that issues a best-effort compensating call for the recv leg under the
idempotency key `idem_recv + ":undo"`.  A raised repo exception rolls the
failing call back, so the state returned alongside an error is unchanged. -/

inductive SettleResult where
  | settled : SettleResult
  | failed : String → SettleResult
deriving DecidableEq

def settle (s : LedgerState) (client_id : ℕ) (recv_code pay_code : String)
    (recv_amount pay_amount : ℚ) (recv_is_deposit pay_is_withdraw : Bool)
    (idem_recv idem_pay : String) : LedgerState × SettleResult :=
  let compensate : LedgerState → String → LedgerState × SettleResult := fun st e =>
    let comp :=
      if recv_is_deposit then
        withdraw st client_id recv_code recv_amount (some (idem_recv ++ ":undo"))
      else
        deposit st client_id recv_code recv_amount (some (idem_recv ++ ":undo"))
    (comp.1, .failed e)
  match (if recv_is_deposit then deposit s client_id recv_code recv_amount (some idem_recv)
         else withdraw s client_id recv_code recv_amount (some idem_recv)) with
  | (s1, .error e) => compensate s1 e
  | (s1, .ok _) =>
    match (if pay_is_withdraw then withdraw s1 client_id pay_code pay_amount (some idem_pay)
           else deposit s1 client_id pay_code pay_amount (some idem_pay)) with
    | (s2, .error e) => compensate s2 e
    | (s2, .ok _) => (s2, .settled)

/-! ### Edit-delta reconciler (`utils/exchange_base.py`, `apply_edit_delta`)

The core of `apply_edit_delta` after the old request text has been parsed:
the parsed old amounts and currency codes enter as arguments, and the first
thing the code does with them is quantize the old amounts at the precisions
passed for the new legs.  A raised repo exception aborts the remaining calls
and propagates (modelled by `legStep`). -/

def legStep (r : LedgerState × Except String ℕ)
    (next : LedgerState → LedgerState × Except String Bool) :
    LedgerState × Except String Bool :=
  match r with
  | (st, .ok _) => next st
  | (st, .error e) => (st, .error e)

def apply_edit_delta (s : LedgerState) (client_id : ℕ)
    (old_recv_amt_raw : ℚ) (old_recv_code : String)
    (old_pay_amt_raw : ℚ) (old_pay_code : String)
    (recv_code_new pay_code_new : String)
    (recv_amount_new pay_amount_new : ℚ)
    (recv_prec pay_prec : ℤ)
    (idemPref : String)
    (recv_is_deposit pay_is_withdraw : Bool) : LedgerState × Except String Bool :=
  let old_recv_amt := quantize_amount old_recv_amt_raw recv_prec
  let old_pay_amt := quantize_amount old_pay_amt_raw pay_prec
  let applyRecv := fun (st : LedgerState) (amount : ℚ) (suffix : String) =>
    if recv_is_deposit then
      deposit st client_id recv_code_new amount
        (some (idemPref ++ ":" ++ suffix ++ ":recv"))
    else
      withdraw st client_id recv_code_new amount
        (some (idemPref ++ ":" ++ suffix ++ ":recv"))
  let applyPay := fun (st : LedgerState) (amount : ℚ) (suffix : String) =>
    if pay_is_withdraw then
      withdraw st client_id pay_code_new amount
        (some (idemPref ++ ":" ++ suffix ++ ":pay"))
    else
      deposit st client_id pay_code_new amount
        (some (idemPref ++ ":" ++ suffix ++ ":pay"))
  if old_recv_code != recv_code_new || old_pay_code != pay_code_new then
    legStep (if recv_is_deposit then
        withdraw s client_id old_recv_code old_recv_amt (some (idemPref ++ ":revert:recv"))
      else
        deposit s client_id old_recv_code old_recv_amt (some (idemPref ++ ":revert:recv")))
      fun s1 =>
    legStep (if pay_is_withdraw then
        deposit s1 client_id old_pay_code old_pay_amt (some (idemPref ++ ":revert:pay"))
      else
        withdraw s1 client_id old_pay_code old_pay_amt (some (idemPref ++ ":revert:pay")))
      fun s2 =>
    legStep (applyRecv s2 recv_amount_new "apply") fun s3 =>
    legStep (applyPay s3 pay_amount_new "apply") fun s4 => (s4, .ok true)
  else
    let d_recv := recv_amount_new - old_recv_amt
    let d_pay := pay_amount_new - old_pay_amt
    let payStep : LedgerState → LedgerState × Except String Bool := fun st =>
      if d_pay > 0 then
        legStep (applyPay st d_pay "delta+") fun s2 => (s2, .ok true)
      else if d_pay < 0 then
        legStep (if pay_is_withdraw then
            deposit st client_id pay_code_new (-d_pay) (some (idemPref ++ ":delta-:pay"))
          else
            withdraw st client_id pay_code_new (-d_pay) (some (idemPref ++ ":delta-:pay")))
          fun s2 => (s2, .ok true)
      else (st, .ok true)
    if d_recv > 0 then
      legStep (applyRecv s d_recv "delta+") payStep
    else if d_recv < 0 then
      legStep (if recv_is_deposit then
          withdraw s client_id recv_code_new (-d_recv) (some (idemPref ++ ":delta-:recv"))
        else
          deposit s client_id recv_code_new (-d_recv) (some (idemPref ++ ":delta-:recv")))
        payStep
    else payStep s

/-! ### Undo registry (`utils/undos.py`) and undo handler (`handlers/wallets.py`)

The `OrderedDict` of consumed undo keys: insertion moves the key to the end,
and the oldest entry is evicted when the size bound is exceeded. -/

structure UndoRegistry where
  seen : List (ℤ × ℕ)
  maxsize : ℕ
deriving DecidableEq

def UndoRegistry.is_done (r : UndoRegistry) (key : ℤ × ℕ) : Bool :=
  r.seen.contains key

def UndoRegistry.mark_done (r : UndoRegistry) (key : ℤ × ℕ) : UndoRegistry :=
  let moved := (r.seen.filter fun k => k != key) ++ [key]
  if moved.length > r.maxsize then { r with seen := moved.tail }
  else { r with seen := moved }

def undoKeyStr (chat_id : ℤ) (msg_id : ℕ) : String :=
  "undo:" ++ toString chat_id ++ ":" ++ toString msg_id

/-- Embeds the ledger-affecting core of `WalletsHandler._cb_undo`: the
`is_done` gate, the reversing `withdraw`/`deposit` under the idempotency key
`undo:{chat_id}:{msg_id}`, and `mark_done` on success.  A repo exception is
caught by the surrounding `except` (state rolled back, registry untouched). -/
def cb_undo (s : LedgerState) (reg : UndoRegistry) (client_id : ℕ) (chat_id : ℤ)
    (msg_id : ℕ) (code : String) (sign : String) (amount : ℚ) :
    LedgerState × UndoRegistry :=
  let key : ℤ × ℕ := (chat_id, msg_id)
  if reg.is_done key then (s, reg)
  else if sign = "+" then
    match withdraw s client_id code amount (some (undoKeyStr chat_id msg_id)) with
    | (s1, .ok _) => (s1, reg.mark_done key)
    | (s1, .error _) => (s1, reg)
  else if sign = "-" then
    match deposit s client_id code amount (some (undoKeyStr chat_id msg_id)) with
    | (s1, .ok _) => (s1, reg.mark_done key)
    | (s1, .error _) => (s1, reg)
  else (s, reg)

/-! ### Witness and counterexample fixtures -/

def accUSD : Account :=
  { id := 1, client_id := 1, currency_code := "USD", precision := some 0,
    balance := 3, is_active := true }

def stateA : LedgerState :=
  { clients := [], accounts := [accUSD], txns := [], next_txn_id := 1,
    next_client_id := 1 }

def stateEmpty : LedgerState :=
  { clients := [], accounts := [], txns := [], next_txn_id := 1,
    next_client_id := 1 }

def txnPrior : Txn :=
  { id := 7, client_id := 1, account_id := 1, amount := 5, balance_after := 8,
    idempotency_key := some "op1" }

def stateB : LedgerState :=
  { clients := [], accounts := [accUSD], txns := [txnPrior], next_txn_id := 8,
    next_client_id := 1 }

def accUSD8 : Account :=
  { id := 1, client_id := 1, currency_code := "USD", precision := some 0,
    balance := 8, is_active := true }

def txnE1 : Txn :=
  { id := 1, client_id := 1, account_id := 1, amount := 5, balance_after := 8,
    idempotency_key := some "" }

def stateA1 : LedgerState :=
  { clients := [], accounts := [accUSD8], txns := [txnE1], next_txn_id := 2,
    next_client_id := 1 }

def accEUR : Account :=
  { id := 2, client_id := 1, currency_code := "EUR", precision := some 0,
    balance := 10, is_active := true }

def stateC : LedgerState :=
  { clients := [], accounts := [accUSD, accEUR], txns := [], next_txn_id := 1,
    next_client_id := 1 }

def accGBP : Account :=
  { id := 3, client_id := 1, currency_code := "GBP", precision := some 0,
    balance := 20, is_active := true }

def accJPY : Account :=
  { id := 4, client_id := 1, currency_code := "JPY", precision := some 0,
    balance := 30, is_active := true }

def stateD : LedgerState :=
  { clients := [], accounts := [accUSD, accEUR, accGBP, accJPY], txns := [],
    next_txn_id := 1, next_client_id := 1 }

def clientCEx : Client :=
  { id := 1, chat_id := 10, name := "A", city := some "B", is_active := false }

def stateCl : LedgerState :=
  { clients := [clientCEx], accounts := [], txns := [], next_txn_id := 1,
    next_client_id := 2 }

/-- The quantizer contract of the spec, as a predicate: the result is a
multiple of `10 ^ (-precision)`, at minimal distance from the input among all
such multiples, and on a distance tie it is the multiple of larger magnitude
(ties away from zero, half-up). -/
def closestMultipleHalfUp (r v : ℚ) (p : ℤ) : Prop :=
  (∃ n : ℤ, r = (n : ℚ) * (10 : ℚ) ^ (-p)) ∧
  (∀ m : ℤ, |v - r| ≤ |v - (m : ℚ) * (10 : ℚ) ^ (-p)|) ∧
  (∀ m : ℤ, |v - (m : ℚ) * (10 : ℚ) ^ (-p)| = |v - r| →
    |(m : ℚ) * (10 : ℚ) ^ (-p)| ≤ |r|)

/-! ### Direction normalization: a deposit/withdraw pair guarded by a
direction flag is one `apply_delta` of a signed effective delta. -/

def dirAmt (b : Bool) (x : ℚ) : ℚ := if b then x else -x

/-! ### Arithmetic facts about the quantizer -/

theorem roundHalfUpInt_neg (x : ℚ) : roundHalfUpInt (-x) = -roundHalfUpInt x := by
  unfold roundHalfUpInt
  rcases lt_trichotomy x 0 with hx | hx | hx
  · rw [if_pos (show (0:ℚ) ≤ -x by linarith), if_neg (show ¬ (0:ℚ) ≤ x by linarith),
      neg_neg]
  · subst hx; norm_num
  · rw [if_neg (show ¬ (0:ℚ) ≤ -x by linarith), if_pos hx.le, neg_neg]

theorem floor_intCast_add_half (n : ℤ) : ⌊(n : ℚ) + 1 / 2⌋ = n := by
  have h0 : ⌊(1 / 2 : ℚ)⌋ = 0 := by
    rw [Int.floor_eq_zero_iff]
    constructor <;> norm_num
  rw [add_comm, Int.floor_add_int, h0, zero_add]

theorem roundHalfUpInt_intCast (n : ℤ) : roundHalfUpInt (n : ℚ) = n := by
  unfold roundHalfUpInt
  split
  · exact floor_intCast_add_half n
  · rw [show -(n : ℚ) = ((-n : ℤ) : ℚ) by push_cast; ring, floor_intCast_add_half, neg_neg]

theorem abs_sub_roundHalfUpInt_le (x : ℚ) : |x - (roundHalfUpInt x : ℚ)| ≤ 1 / 2 := by
  have key : ∀ y : ℚ, 0 ≤ y → |y - (roundHalfUpInt y : ℚ)| ≤ 1 / 2 := by
    intro y hy
    have hdef : roundHalfUpInt y = ⌊y + 1 / 2⌋ := by
      unfold roundHalfUpInt; rw [if_pos hy]
    have h1 : ((⌊y + 1 / 2⌋ : ℤ) : ℚ) ≤ y + 1 / 2 := Int.floor_le _
    have h2 : y + 1 / 2 < ((⌊y + 1 / 2⌋ : ℤ) : ℚ) + 1 := Int.lt_floor_add_one _
    rw [hdef, abs_le]
    constructor <;> linarith
  rcases le_or_lt 0 x with hx | hx
  · exact key x hx
  · have h := key (-x) (by linarith)
    rw [roundHalfUpInt_neg] at h
    push_cast at h
    rw [show -x - -(roundHalfUpInt x : ℚ) = -(x - (roundHalfUpInt x : ℚ)) by ring,
      abs_neg] at h
    exact h

theorem roundHalfUpInt_lt_half (x : ℚ) (hx : 0 ≤ x) :
    x - (roundHalfUpInt x : ℚ) < 1 / 2 := by
  have hdef : roundHalfUpInt x = ⌊x + 1 / 2⌋ := by
    unfold roundHalfUpInt; rw [if_pos hx]
  have h2 : x + 1 / 2 < ((⌊x + 1 / 2⌋ : ℤ) : ℚ) + 1 := Int.lt_floor_add_one _
  rw [hdef]
  linarith

theorem intCast_abs_sub_ge_one {k m : ℤ} (hne : k ≠ m) :
    (1 : ℚ) ≤ |(k : ℚ) - (m : ℚ)| := by
  have h1 : (1 : ℤ) ≤ |k - m| := Int.one_le_abs (sub_ne_zero.mpr hne)
  have h2 : ((1 : ℤ) : ℚ) ≤ ((|k - m| : ℤ) : ℚ) := Int.cast_le.mpr h1
  push_cast at h2
  exact h2

theorem roundHalfUpInt_nearest (x : ℚ) (m : ℤ) :
    |x - (roundHalfUpInt x : ℚ)| ≤ |x - (m : ℚ)| := by
  set k := roundHalfUpInt x with hk
  rcases eq_or_ne m k with rfl | hne
  · exact le_refl _
  · have hk2 : |x - (k : ℚ)| ≤ 1 / 2 := abs_sub_roundHalfUpInt_le x
    have hint : (1 : ℚ) ≤ |(k : ℚ) - (m : ℚ)| := intCast_abs_sub_ge_one (Ne.symm hne)
    have htri : |(k : ℚ) - (m : ℚ)| ≤ |(k : ℚ) - x| + |x - (m : ℚ)| := abs_sub_le _ _ _
    have hcomm : |(k : ℚ) - x| = |x - (k : ℚ)| := abs_sub_comm _ _
    linarith

theorem roundHalfUpInt_tie (x : ℚ) (m : ℤ)
    (h : |x - (m : ℚ)| = |x - (roundHalfUpInt x : ℚ)|) :
    |(m : ℚ)| ≤ |(roundHalfUpInt x : ℚ)| := by
  have key : ∀ y : ℚ, 0 ≤ y → ∀ m' : ℤ, |y - (m' : ℚ)| = |y - (roundHalfUpInt y : ℚ)| →
      |(m' : ℚ)| ≤ |(roundHalfUpInt y : ℚ)| := by
    intro y hy m' hm
    set k := roundHalfUpInt y with hkdef
    rcases eq_or_ne m' k with rfl | hne
    · exact le_refl _
    · have hk2 : |y - (k : ℚ)| ≤ 1 / 2 := abs_sub_roundHalfUpInt_le y
      have hint : (1 : ℚ) ≤ |(k : ℚ) - (m' : ℚ)| := intCast_abs_sub_ge_one (Ne.symm hne)
      have htri : |(k : ℚ) - (m' : ℚ)| ≤ |(k : ℚ) - y| + |y - (m' : ℚ)| := abs_sub_le _ _ _
      have hcomm : |(k : ℚ) - y| = |y - (k : ℚ)| := abs_sub_comm _ _
      have h3 : (1 : ℚ) ≤ |y - (k : ℚ)| + |y - (k : ℚ)| := by
        rw [hm] at htri
        linarith
      have hhalf : |y - (k : ℚ)| = 1 / 2 := by linarith
      have hstrict : y - (k : ℚ) < 1 / 2 := roundHalfUpInt_lt_half y hy
      have hup : (k : ℚ) = y + 1 / 2 := by
        rcases (abs_eq (by norm_num : (0:ℚ) ≤ 1 / 2)).mp hhalf with h9 | h9
        · exfalso; linarith
        · linarith
      have hmy : |y - (m' : ℚ)| = 1 / 2 := by rw [hm, hhalf]
      have hmval : (m' : ℚ) = (k : ℚ) - 1 := by
        rcases (abs_eq (by norm_num : (0:ℚ) ≤ 1 / 2)).mp hmy with h9 | h9
        · linarith
        · exfalso
          apply hne
          have h10 : (m' : ℚ) = (k : ℚ) := by linarith
          exact_mod_cast h10
      have hk1 : (1 : ℚ) ≤ (k : ℚ) := by
        have h11 : (0 : ℚ) < (k : ℚ) := by linarith
        have h12 : (0 : ℤ) < k := by exact_mod_cast h11
        exact_mod_cast h12
      rw [abs_of_nonneg (by linarith : (0:ℚ) ≤ (m' : ℚ)),
          abs_of_nonneg (by linarith : (0:ℚ) ≤ (k : ℚ))]
      linarith
  rcases le_or_lt 0 x with hx | hx
  · exact key x hx m h
  · have hneg := roundHalfUpInt_neg x
    have h9 : |(-x) - ((-m : ℤ) : ℚ)| = |(-x) - (roundHalfUpInt (-x) : ℚ)| := by
      rw [hneg]
      push_cast
      rw [show -x - -(m : ℚ) = -(x - (m : ℚ)) by ring,
        show -x - -(roundHalfUpInt x : ℚ) = -(x - (roundHalfUpInt x : ℚ)) by ring,
        abs_neg, abs_neg]
      exact h
    have hkey := key (-x) (by linarith) (-m) h9
    rw [hneg] at hkey
    push_cast at hkey
    rw [abs_neg, abs_neg] at hkey
    exact hkey

theorem qstep_pos (p : ℤ) : (0 : ℚ) < (10 : ℚ) ^ (-p) :=
  zpow_pos (by norm_num) _

theorem qstep_ne_zero (p : ℤ) : ((10 : ℚ) ^ (-p)) ≠ 0 :=
  ne_of_gt (qstep_pos p)

/-- The quantizer always lands on an integer multiple of the step. -/
theorem quantize_isMultiple (v : ℚ) (p : ℤ) :
    ∃ n : ℤ, quantize_amount v p = (n : ℚ) * (10 : ℚ) ^ (-p) :=
  ⟨roundHalfUpInt (v / (10 : ℚ) ^ (-p)), rfl⟩

/-- The quantizer is the identity on integer multiples of the step. -/
theorem quantize_eq_of_multiple {v : ℚ} {p : ℤ} (n : ℤ)
    (h : v = (n : ℚ) * (10 : ℚ) ^ (-p)) : quantize_amount v p = v := by
  unfold quantize_amount
  have hq := qstep_ne_zero p
  have hdiv : v / (10 : ℚ) ^ (-p) = (n : ℚ) := by
    rw [h, mul_div_assoc, div_self hq, mul_one]
  rw [hdiv, roundHalfUpInt_intCast, ← h]

theorem quantize_neg (v : ℚ) (p : ℤ) :
    quantize_amount (-v) p = -quantize_amount v p := by
  unfold quantize_amount
  rw [neg_div, roundHalfUpInt_neg]
  push_cast
  ring

theorem quantize_idem (v : ℚ) (p : ℤ) :
    quantize_amount (quantize_amount v p) p = quantize_amount v p := by
  obtain ⟨n, hn⟩ := quantize_isMultiple v p
  exact quantize_eq_of_multiple n hn

/-- Adding an already-quantized delta to an already-quantized balance is
exact: the final quantization in `_apply_delta` is the identity. -/
theorem quantize_add_multiples {b v : ℚ} {p : ℤ} (nb nv : ℤ)
    (hb : b = (nb : ℚ) * (10 : ℚ) ^ (-p)) (hv : v = (nv : ℚ) * (10 : ℚ) ^ (-p)) :
    quantize_amount (b + v) p = b + v := by
  apply quantize_eq_of_multiple (nb + nv)
  rw [hb, hv]
  push_cast
  ring

theorem sub_mul_div_step (v z : ℚ) (p : ℤ) :
    v - z * (10 : ℚ) ^ (-p) = (v / (10 : ℚ) ^ (-p) - z) * (10 : ℚ) ^ (-p) := by
  rw [sub_mul, div_mul_cancel₀ _ (qstep_ne_zero p)]

/-- The quantizer picks a multiple of the step at minimal distance. -/
theorem quantize_nearest (v : ℚ) (p : ℤ) (m : ℤ) :
    |v - quantize_amount v p| ≤ |v - (m : ℚ) * (10 : ℚ) ^ (-p)| := by
  have hq := qstep_pos p
  have h1 : |v - quantize_amount v p| =
      |v / (10 : ℚ) ^ (-p) - (roundHalfUpInt (v / (10 : ℚ) ^ (-p)) : ℚ)| * (10 : ℚ) ^ (-p) := by
    unfold quantize_amount
    rw [sub_mul_div_step, abs_mul, abs_of_pos hq]
  have h2 : |v - (m : ℚ) * (10 : ℚ) ^ (-p)| =
      |v / (10 : ℚ) ^ (-p) - (m : ℚ)| * (10 : ℚ) ^ (-p) := by
    rw [sub_mul_div_step, abs_mul, abs_of_pos hq]
  rw [h1, h2]
  exact mul_le_mul_of_nonneg_right (roundHalfUpInt_nearest _ m) hq.le

/-- On a tie, the quantizer picks the multiple of larger magnitude (half-up,
away from zero). -/
theorem quantize_tie_away_from_zero (v : ℚ) (p : ℤ) (m : ℤ)
    (h : |v - (m : ℚ) * (10 : ℚ) ^ (-p)| = |v - quantize_amount v p|) :
    |(m : ℚ) * (10 : ℚ) ^ (-p)| ≤ |quantize_amount v p| := by
  have hq := qstep_pos p
  have h1 : |v - quantize_amount v p| =
      |v / (10 : ℚ) ^ (-p) - (roundHalfUpInt (v / (10 : ℚ) ^ (-p)) : ℚ)| * (10 : ℚ) ^ (-p) := by
    unfold quantize_amount
    rw [sub_mul_div_step, abs_mul, abs_of_pos hq]
  have h2 : |v - (m : ℚ) * (10 : ℚ) ^ (-p)| =
      |v / (10 : ℚ) ^ (-p) - (m : ℚ)| * (10 : ℚ) ^ (-p) := by
    rw [sub_mul_div_step, abs_mul, abs_of_pos hq]
  rw [h1, h2] at h
  have htie := mul_right_cancel₀ (ne_of_gt hq) h
  have hres := roundHalfUpInt_tie (v / (10 : ℚ) ^ (-p)) m htie
  unfold quantize_amount
  rw [abs_mul, abs_mul, abs_of_pos hq]
  exact mul_le_mul_of_nonneg_right hres hq.le

/-! ### Helper lemmas: strings -/

theorem string_eq_of_data_eq {a b : String} (h : a.data = b.data) : a = b := by
  cases a
  cases b
  exact congrArg String.mk h

theorem string_append_right_inj {p a b : String} (h : p ++ a = p ++ b) : a = b := by
  have hd := congrArg String.data h
  rw [String.data_append, String.data_append] at hd
  exact string_eq_of_data_eq (List.append_cancel_left hd)

theorem string_append_ne_of_ne (p : String) {a b : String} (h : a ≠ b) :
    p ++ a ≠ p ++ b :=
  fun hc => h (string_append_right_inj hc)

theorem string_ne_empty_of_data {t : String} (h : t.data ≠ []) : t ≠ "" := by
  intro hc
  subst hc
  exact h rfl

theorem string_append_ne_empty (p : String) {t : String} (h : t ≠ "") :
    p ++ t ≠ "" := by
  intro hc
  apply h
  have hd := congrArg String.data hc
  rw [String.data_append] at hd
  have : t.data = [] := (List.append_eq_nil.mp hd).2
  exact string_eq_of_data_eq this

theorem string_append_ne_self {p t : String} (h : t ≠ "") : p ++ t ≠ p := by
  intro hc
  apply h
  have hd := congrArg String.data hc
  rw [String.data_append] at hd
  have : p.data ++ t.data = p.data ++ [] := by simpa using hd
  exact string_eq_of_data_eq (List.append_cancel_left this)

theorem string_ne_of_append_ne_self {p t : String} (h : t ≠ "") : p ≠ p ++ t :=
  fun hc => string_append_ne_self h hc.symm

/-! ### Helper lemmas: `find?` over grown and rewritten lists -/

theorem find?_append_none {α} {l : List α} {x : α} {p : α → Bool}
    (hl : l.find? p = none) (hx : p x = false) :
    (l ++ [x]).find? p = none := by
  rw [List.find?_append, hl, Option.none_or]
  simp [List.find?_cons, hx]

theorem find?_append_found {α} {l : List α} {x : α} {p : α → Bool}
    (hl : l.find? p = none) (hx : p x = true) :
    (l ++ [x]).find? p = some x := by
  rw [List.find?_append, hl, Option.none_or]
  simp [List.find?_cons, hx]

theorem find?_updateBalance (l : List Account) (aid : ℕ) (nb : ℚ)
    (p : Account → Bool)
    (hp : ∀ a : Account, p { a with balance := nb } = p a) :
    (updateBalance l aid nb).find? p =
      (l.find? p).map fun a => if a.id == aid then { a with balance := nb } else a := by
  unfold updateBalance
  have hcomp : (p ∘ fun a : Account =>
      if a.id == aid then { a with balance := nb } else a) = p := by
    funext a
    cases h : (a.id == aid) with
    | true => simp [Function.comp, h, hp]
    | false => simp [Function.comp, h]
  rw [List.find?_map, hcomp]

/-! ### Helper lemmas: `apply_delta` equations -/

theorem apply_delta_dedup_hit {s : LedgerState} {c : ℕ} {k : Option String} {t : Txn}
    (h : dedupHit s c k = some t) (code : String) (amt : ℚ) :
    apply_delta s c code amt k = (s, .ok t.id) := by
  simp only [apply_delta, h]

theorem apply_delta_notfound {s : LedgerState} {c : ℕ} {k : Option String}
    {code : String} (h1 : dedupHit s c k = none)
    (h2 : findActiveAccount s c (to_upper code) = none) (amt : ℚ) :
    apply_delta s c code amt k = (s, .error "account not found") := by
  simp only [apply_delta, h1, h2]

/-- Successful path of `_apply_delta`, fully explicit. -/
theorem apply_delta_success {s : LedgerState} {c : ℕ} {k : Option String}
    {code : String} {acc : Account} (h1 : dedupHit s c k = none)
    (h2 : findActiveAccount s c (to_upper code) = some acc) (amt : ℚ) :
    apply_delta s c code amt k =
      ({ s with
          accounts := updateBalance s.accounts acc.id
            (quantize_amount (acc.balance + quantize_amount amt (acc.precision.getD 2))
              (acc.precision.getD 2)),
          txns := s.txns ++
            [{ id := s.next_txn_id, client_id := c, account_id := acc.id,
               amount := quantize_amount amt (acc.precision.getD 2),
               balance_after :=
                 quantize_amount (acc.balance + quantize_amount amt (acc.precision.getD 2))
                   (acc.precision.getD 2),
               idempotency_key := k }],
          next_txn_id := s.next_txn_id + 1 }, .ok s.next_txn_id) := by
  simp only [apply_delta, h1, h2]

/-- Integers are fixed points of the quantizer for any non-negative
precision. -/
theorem quantize_amount_eq_self_of_int (n : ℤ) (p : ℕ) :
    quantize_amount (n : ℚ) (p : ℤ) = (n : ℚ) := by
  apply quantize_eq_of_multiple (n * 10 ^ p)
  push_cast
  rw [mul_assoc, ← zpow_natCast (10 : ℚ) p, ← zpow_add₀ (by norm_num : (10:ℚ) ≠ 0)]
  simp

/-- After a successful fresh apply with a non-empty key, the inserted
transaction is exactly what the dedup lookup of that key finds. -/
theorem apply_delta_ok_dedup {s s1 : LedgerState} {c : ℕ} {code : String} {amt : ℚ}
    {k : String} {tid : ℕ} (hk : k ≠ "")
    (h1 : apply_delta s c code amt (some k) = (s1, .ok tid)) :
    ∃ t : Txn, dedupHit s1 c (some k) = some t ∧ t.id = tid := by
  cases hd : dedupHit s c (some k) with
  | some t =>
    rw [apply_delta_dedup_hit hd code amt, Prod.mk.injEq] at h1
    obtain ⟨hs, ht⟩ := h1
    simp only [Except.ok.injEq] at ht
    subst hs
    exact ⟨t, hd, ht⟩
  | none =>
    cases ha : findActiveAccount s c (to_upper code) with
    | none =>
      rw [apply_delta_notfound hd ha amt, Prod.mk.injEq] at h1
      simp at h1
    | some acc =>
      rw [apply_delta_success hd ha amt, Prod.mk.injEq] at h1
      obtain ⟨hs, ht⟩ := h1
      simp only [Except.ok.injEq] at ht
      have hmiss : findTxnByKey s c k = none := by
        simpa [dedupHit, hk] using hd
      refine ⟨{ id := s.next_txn_id, client_id := c, account_id := acc.id,
                amount := quantize_amount amt (acc.precision.getD 2),
                balance_after :=
                  quantize_amount (acc.balance + quantize_amount amt (acc.precision.getD 2))
                    (acc.precision.getD 2),
                idempotency_key := some k }, ?_, ht⟩
      rw [← hs]
      simp only [dedupHit, if_neg hk]
      show (s.txns ++ [_]).find? _ = _
      exact find?_append_found hmiss (by simp)


theorem dir_call (b : Bool) (s : LedgerState) (c : ℕ) (code : String) (x : ℚ)
    (k : Option String) :
    (if b then deposit s c code x k else withdraw s c code x k)
      = apply_delta s c code (dirAmt b x) k := by
  cases b <;> simp [deposit, withdraw, dirAmt]

theorem dir_call_opp (b : Bool) (s : LedgerState) (c : ℕ) (code : String) (x : ℚ)
    (k : Option String) :
    (if b then withdraw s c code x k else deposit s c code x k)
      = apply_delta s c code (-(dirAmt b x)) k := by
  cases b <;> simp [deposit, withdraw, dirAmt]

theorem quantize_dirAmt_neg (b : Bool) (x : ℚ) (p : ℤ) :
    quantize_amount (-(dirAmt b x)) p = -(quantize_amount (dirAmt b x) p) :=
  quantize_neg _ p

theorem find?_append_of_found {α} {l l2 : List α} {p : α → Bool} {y : α}
    (h : l.find? p = some y) : (l ++ l2).find? p = some y := by
  rw [List.find?_append, h]
  rfl

/-- A balance update leaves every account-lookup result in place, with only
the balance of the matching ids rewritten. -/
theorem findActiveAccount_of_accounts {s2 s : LedgerState} (aid : ℕ) (nb : ℚ)
    (h : s2.accounts = updateBalance s.accounts aid nb) (c : ℕ) (code : String) :
    findActiveAccount s2 c code
      = (findActiveAccount s c code).map
          (fun a => if a.id == aid then { a with balance := nb } else a) := by
  unfold findActiveAccount
  rw [h]
  exact find?_updateBalance _ _ _ _ (fun a => rfl)

theorem findTxnByKey_grow_none {s2 : LedgerState} {txns1 : List Txn} {t : Txn}
    (c : ℕ) (k : String) (h : s2.txns = txns1 ++ [t])
    (h1 : txns1.find? (fun u => u.client_id == c && u.idempotency_key == some k) = none)
    (hx : (t.client_id == c && t.idempotency_key == some k) = false) :
    findTxnByKey s2 c k = none := by
  unfold findTxnByKey
  rw [h]
  exact find?_append_none h1 hx

theorem findTxnByKey_grow_found {s2 : LedgerState} {txns1 : List Txn} {t : Txn}
    (c : ℕ) (k : String) (h : s2.txns = txns1 ++ [t])
    (h1 : txns1.find? (fun u => u.client_id == c && u.idempotency_key == some k) = none)
    (hx : (t.client_id == c && t.idempotency_key == some k) = true) :
    findTxnByKey s2 c k = some t := by
  unfold findTxnByKey
  rw [h]
  exact find?_append_found h1 hx

/-- A successful apply of an already-quantized delta to an already-quantized
balance, written without quantization residue: the recorded delta is the
delta and the new balance is the plain sum. -/
theorem apply_delta_clean {st : LedgerState} {c : ℕ} {code : String} {acc2 : Account}
    (δ : ℚ) (k : Option String) (p : ℤ) (nb mδ : ℤ)
    (hdd : dedupHit st c k = none)
    (hacc2 : findActiveAccount st c (to_upper code) = some acc2)
    (hp : acc2.precision.getD 2 = p)
    (hb : acc2.balance = (nb : ℚ) * (10 : ℚ) ^ (-p))
    (hδ : δ = (mδ : ℚ) * (10 : ℚ) ^ (-p)) :
    apply_delta st c code δ k
      = ({ st with
            accounts := updateBalance st.accounts acc2.id (acc2.balance + δ),
            txns := st.txns ++
              [{ id := st.next_txn_id, client_id := c, account_id := acc2.id,
                 amount := δ, balance_after := acc2.balance + δ,
                 idempotency_key := k }],
            next_txn_id := st.next_txn_id + 1 }, .ok st.next_txn_id) := by
  have hqδ : quantize_amount δ (acc2.precision.getD 2) = δ := by
    rw [hp]
    exact quantize_eq_of_multiple mδ hδ
  have hqb : quantize_amount (acc2.balance + quantize_amount δ (acc2.precision.getD 2))
      (acc2.precision.getD 2) = acc2.balance + δ := by
    rw [hqδ, hp]
    exact quantize_add_multiples nb mδ hb hδ
  rw [apply_delta_success hdd hacc2 δ, hqb, hqδ]

theorem dirAmt_mult (b : Bool) {x : ℚ} {q : ℚ} {m : ℤ} (h : x = (m : ℚ) * q) :
    ∃ m2 : ℤ, dirAmt b x = (m2 : ℚ) * q := by
  cases b
  · exact ⟨-m, by rw [dirAmt, if_neg (by simp), h]; push_cast; ring⟩
  · exact ⟨m, by rw [dirAmt, if_pos rfl, h]⟩

theorem neg_mult {x : ℚ} {q : ℚ} {m : ℤ} (h : x = (m : ℚ) * q) :
    -x = ((-m : ℤ) : ℚ) * q := by
  rw [h]
  push_cast
  ring

theorem dirAmt_zero (b : Bool) : dirAmt b 0 = 0 := by
  cases b <;> simp [dirAmt]

theorem neg_dirAmt_neg (b : Bool) (x : ℚ) : -(dirAmt b (-x)) = dirAmt b x := by
  cases b <;> simp [dirAmt]

theorem dirAmt_neg_arg (b : Bool) (x : ℚ) : dirAmt b (-x) = -(dirAmt b x) := by
  cases b <;> simp [dirAmt]

theorem findActiveAccount_update_other {s2 s : LedgerState} (aid : ℕ) (nb : ℚ)
    (h : s2.accounts = updateBalance s.accounts aid nb) (c : ℕ) (code : String)
    {acc2 : Account} (hacc2 : findActiveAccount s c code = some acc2)
    (hne : acc2.id ≠ aid) :
    findActiveAccount s2 c code = some acc2 := by
  rw [findActiveAccount_of_accounts aid nb h c code, hacc2]
  simp [beq_iff_eq, hne]

theorem findActiveAccount_update_self {s2 s : LedgerState} (aid : ℕ) (nb : ℚ)
    (h : s2.accounts = updateBalance s.accounts aid nb) (c : ℕ) (code : String)
    {acc2 : Account} (hacc2 : findActiveAccount s c code = some acc2)
    (heq : acc2.id = aid) :
    findActiveAccount s2 c code = some { acc2 with balance := nb } := by
  rw [findActiveAccount_of_accounts aid nb h c code, hacc2]
  simp [beq_iff_eq, heq]

theorem balanceOf_eq {s : LedgerState} {c : ℕ} {code : String} {acc2 : Account}
    (h : findActiveAccount s c code = some acc2) :
    balanceOf s c code = some acc2.balance := by
  unfold balanceOf
  rw [h]
  rfl

/-- Evaluation of the pay-delta branch of `apply_edit_delta` (the
`payStep` continuation): a positive delta is applied in the original
direction, the magnitude of a negative delta in the opposite direction, a
zero delta performs no call; in every case the pay balance moves by the
effective ledger delta `-(dirAmt pw dP)` and other lookups are untouched. -/
theorem pay_branch_eval
    (st : LedgerState) (c : ℕ) (pay_code_new : String) (dP : ℚ) (pay_prec : ℤ)
    (idemPref : String) (pw : Bool) (accP2 : Account) (nP2 mP2 : ℤ)
    (haccP : findActiveAccount st c (to_upper pay_code_new) = some accP2)
    (hprecP : accP2.precision.getD 2 = pay_prec)
    (hbalP : accP2.balance = (nP2 : ℚ) * (10 : ℚ) ^ (-pay_prec))
    (hmP2 : dirAmt pw dP = (mP2 : ℚ) * (10 : ℚ) ^ (-pay_prec))
    (hdd1 : dedupHit st c (some (idemPref ++ ":" ++ "delta+" ++ ":pay")) = none)
    (hdd2 : dedupHit st c (some (idemPref ++ ":delta-:pay")) = none) :
    ∃ S2 : LedgerState,
      (if dP > 0 then
        legStep (if pw then
            withdraw st c pay_code_new dP (some (idemPref ++ ":" ++ "delta+" ++ ":pay"))
          else
            deposit st c pay_code_new dP (some (idemPref ++ ":" ++ "delta+" ++ ":pay")))
          (fun s2 => (s2, .ok true))
      else if dP < 0 then
        legStep (if pw then
            deposit st c pay_code_new (-dP) (some (idemPref ++ ":delta-:pay"))
          else
            withdraw st c pay_code_new (-dP) (some (idemPref ++ ":delta-:pay")))
          (fun s2 => (s2, .ok true))
      else (st, .ok true)) = (S2, .ok true)
      ∧ balanceOf S2 c (to_upper pay_code_new)
          = some (accP2.balance + -(dirAmt pw dP))
      ∧ (∀ code2 : String,
          (∀ a : Account, findActiveAccount st c code2 = some a → a.id ≠ accP2.id) →
          findActiveAccount S2 c code2 = findActiveAccount st c code2)
      ∧ S2.txns.length = st.txns.length + (if dP = 0 then 0 else 1) := by
  rcases lt_trichotomy dP 0 with hneg | hzero | hpos
  · have e2 := apply_delta_clean (-(dirAmt pw dP)) (some (idemPref ++ ":delta-:pay"))
      pay_prec nP2 (-mP2) hdd2 haccP hprecP hbalP (neg_mult hmP2)
    rw [if_neg (not_lt.mpr hneg.le), if_pos hneg, dir_call, dirAmt_neg_arg, e2]
    simp only [legStep]
    refine ⟨_, rfl, ?_, ?_, ?_⟩
    · exact balanceOf_eq
        (findActiveAccount_update_self accP2.id _ rfl c (to_upper pay_code_new) haccP rfl)
    · intro code2 havoid
      rw [findActiveAccount_of_accounts accP2.id _ rfl c code2]
      cases hc : findActiveAccount st c code2 with
      | none => rfl
      | some a =>
        simp [beq_iff_eq, havoid a hc]
    · rw [if_neg (ne_of_lt hneg)]
      simp
  · subst hzero
    rw [if_neg (by norm_num), if_neg (by norm_num)]
    refine ⟨st, rfl, ?_, fun _ _ => rfl, by simp⟩
    rw [dirAmt_zero]
    simpa using balanceOf_eq haccP
  · have e2 := apply_delta_clean (-(dirAmt pw dP))
      (some (idemPref ++ ":" ++ "delta+" ++ ":pay"))
      pay_prec nP2 (-mP2) hdd1 haccP hprecP hbalP (neg_mult hmP2)
    rw [if_pos hpos, dir_call_opp, e2]
    simp only [legStep]
    refine ⟨_, rfl, ?_, ?_, ?_⟩
    · exact balanceOf_eq
        (findActiveAccount_update_self accP2.id _ rfl c (to_upper pay_code_new) haccP rfl)
    · intro code2 havoid
      rw [findActiveAccount_of_accounts accP2.id _ rfl c code2]
      cases hc : findActiveAccount st c code2 with
      | none => rfl
      | some a =>
        simp [beq_iff_eq, havoid a hc]
    · rw [if_neg (ne_of_gt hpos)]
      simp

/-! ### Claims -/

/-- C1 (amended): for every client, currency, amount and NON-EMPTY
idempotency key, a second `_apply_delta` call with the same
(clientId, idempotencyKey) returns the transaction id of the first call and
leaves the whole state — in particular every account balance — unchanged.
(The empty-string key is treated as absent by the Python truthiness check
`if idempotency_key:` and deduplicates nothing; see the counterexample.)
`deposit` forwards its arguments unchanged and `withdraw` negates the amount
first, so both are instances of this statement. -/
theorem apply_delta_idempotent
    (s : LedgerState) (c : ℕ) (code : String) (amt : ℚ) (k : String)
    (s1 : LedgerState) (tid : ℕ) (hk : k ≠ "")
    (h1 : apply_delta s c code amt (some k) = (s1, .ok tid)) :
    apply_delta s1 c code amt (some k) = (s1, .ok tid) := by
  obtain ⟨t, hd1, htid⟩ := apply_delta_ok_dedup hk h1
  rw [apply_delta_dedup_hit hd1 code amt, htid]

theorem apply_delta_idempotent_witness :
    apply_delta (apply_delta stateA 1 "usd" 5 (some "op1")).1 1 "usd" 5 (some "op1")
      = ((apply_delta stateA 1 "usd" 5 (some "op1")).1, .ok 1) :=
  apply_delta_idempotent stateA 1 "usd" 5 "op1"
    (apply_delta stateA 1 "usd" 5 (some "op1")).1 1 (by decide) rfl

/-- C1 counterexample: with the empty-string idempotency key (a value, hence
"for every idempotency key" covers it), the second identical call creates a
second transaction (id 2, not 1) and applies the delta again: the balance
moves from 3 to 8 to 13 instead of staying at one application. -/
theorem apply_delta_empty_key_not_idempotent :
    (apply_delta stateA 1 "usd" 5 (some "")).2 = .ok 1 ∧
    (apply_delta (apply_delta stateA 1 "usd" 5 (some "")).1 1 "usd" 5 (some "")).2 = .ok 2 ∧
    balanceOf (apply_delta (apply_delta stateA 1 "usd" 5 (some "")).1 1 "usd" 5 (some "")).1
      1 "USD" = some 13 := by
  have e5 : quantize_amount (5 : ℚ) (0 : ℤ) = 5 := by
    simpa using quantize_amount_eq_self_of_int 5 0
  have e8n : quantize_amount (8 : ℚ) (0 : ℤ) = 8 := by
    simpa using quantize_amount_eq_self_of_int 8 0
  have e13n : quantize_amount (13 : ℚ) (0 : ℤ) = 13 := by
    simpa using quantize_amount_eq_self_of_int 13 0
  have hstep := apply_delta_success
    (show dedupHit stateA 1 (some "") = none from rfl)
    (show findActiveAccount stateA 1 (to_upper "usd") = some accUSD from rfl) (5 : ℚ)
  have hstate1 : (apply_delta stateA 1 "usd" 5 (some "")).1 = stateA1 := by
    rw [hstep]
    norm_num [stateA, stateA1, accUSD, accUSD8, txnE1, updateBalance, e5, e8n]
  have hstep2 := apply_delta_success
    (show dedupHit stateA1 1 (some "") = none from rfl)
    (show findActiveAccount stateA1 1 (to_upper "usd") = some accUSD8 from rfl) (5 : ℚ)
  refine ⟨rfl, ?_, ?_⟩
  · rw [hstate1]
    rfl
  · rw [hstate1, hstep2]
    norm_num [balanceOf, findActiveAccount, updateBalance, stateA1, accUSD8, e5, e13n]

/-- C2: a successful or failed `_apply_delta` keeps every account balance an
exact integer multiple of `10 ^ (-precision)` for the effective precision of
the account (`precision` column, `NULL` read as 2): the stored new balance is
itself a quantizer output.  Account ids are the primary key of
`client_accounts`, hence the `Nodup` hypothesis. -/
theorem apply_delta_preserves_quantization
    (s : LedgerState) (c : ℕ) (code : String) (amt : ℚ) (k : Option String)
    (hids : (s.accounts.map Account.id).Nodup)
    (hinv : quantizedState s) :
    quantizedState (apply_delta s c code amt k).1 := by
  cases hd : dedupHit s c k with
  | some t =>
    rw [apply_delta_dedup_hit hd code amt]
    exact hinv
  | none =>
    cases ha : findActiveAccount s c (to_upper code) with
    | none =>
      rw [apply_delta_notfound hd ha amt]
      exact hinv
    | some acc =>
      rw [apply_delta_success hd ha amt]
      intro a ham
      simp only [updateBalance, List.mem_map] at ham
      obtain ⟨b, hb, rfl⟩ := ham
      by_cases hbid : (b.id == acc.id) = true
      · have hmem_acc : acc ∈ s.accounts := List.mem_of_find?_eq_some ha
        have hbeq : b = acc := List.inj_on_of_nodup_map hids hb hmem_acc (beq_iff_eq.mp hbid)
        subst hbeq
        rw [if_pos hbid]
        show ∃ n : ℤ, quantize_amount (b.balance + quantize_amount amt (b.precision.getD 2))
          (b.precision.getD 2) = (n : ℚ) * (10 : ℚ) ^ (-(b.precision.getD 2))
        exact quantize_isMultiple _ _
      · rw [if_neg hbid]
        exact hinv b hb

theorem apply_delta_preserves_quantization_witness :
    quantizedState stateA ∧ quantizedState (apply_delta stateA 1 "usd" 5 none).1 := by
  have hinv : quantizedState stateA := by
    intro a ha
    simp only [stateA, List.mem_singleton] at ha
    subst ha
    exact ⟨3, by norm_num [accUSD]⟩
  exact ⟨hinv,
    apply_delta_preserves_quantization stateA 1 "usd" 5 none (by simp [stateA, accUSD]) hinv⟩

/-- C6: when the dedup step does not hit and no active account exists for the
client and the upper-cased currency code (missing or soft-deleted), the call
raises `KeyError("account not found")` and the surrounding storage
transaction leaves the state exactly as it was: no balance write, no
transaction row. -/
theorem apply_delta_account_not_found
    (s : LedgerState) (c : ℕ) (code : String) (amt : ℚ) (k : Option String)
    (hd : dedupHit s c k = none)
    (ha : findActiveAccount s c (to_upper code) = none) :
    apply_delta s c code amt k = (s, .error "account not found") :=
  apply_delta_notfound hd ha amt

theorem apply_delta_account_not_found_witness :
    apply_delta stateEmpty 1 "usd" 5 (some "op9") = (stateEmpty, .error "account not found") :=
  apply_delta_account_not_found stateEmpty 1 "usd" 5 (some "op9") rfl rfl

/-- C10: the dedup lookup keys on (client id, idempotency key) alone; when a
prior transaction matches, `_apply_delta` returns that transaction id for any
currency code and any amount of the repeated call, without touching the
state (no account lookup result is consulted, no quantization, no write). -/
theorem apply_delta_dedup_ignores_code_and_amount
    (s : LedgerState) (c : ℕ) (k : String) (t : Txn)
    (hk : k ≠ "") (hfind : findTxnByKey s c k = some t)
    (code : String) (amt : ℚ) :
    apply_delta s c code amt (some k) = (s, .ok t.id) :=
  apply_delta_dedup_hit (by simp [dedupHit, hk, hfind]) code amt

theorem apply_delta_dedup_ignores_code_and_amount_witness :
    apply_delta stateB 1 "eur" 999 (some "op1") = (stateB, .ok 7) :=
  apply_delta_dedup_ignores_code_and_amount stateB 1 "op1" txnPrior
    (by decide) rfl "eur" 999

/-- C7: for every finite decimal value and precision in [0, 8],
`quantize_amount` returns the closest multiple of `10 ^ (-precision)`, ties
going to the multiple of larger magnitude (half-up, away from zero), with no
side effects (it is a pure function).  The witness also evaluates the spec
example `quantize(100.004, 2) = 100.00`. -/
theorem quantize_amount_closest (v : ℚ) (p : ℤ) (h0 : 0 ≤ p) (h8 : p ≤ 8) :
    closestMultipleHalfUp (quantize_amount v p) v p :=
  ⟨quantize_isMultiple v p, fun m => quantize_nearest v p m,
   fun m hm => quantize_tie_away_from_zero v p m hm⟩

theorem quantize_amount_closest_witness :
    quantize_amount (100004 / 1000 : ℚ) 2 = 100 ∧
    closestMultipleHalfUp (quantize_amount (100004 / 1000 : ℚ) 2) (100004 / 1000 : ℚ) 2 := by
  constructor
  · unfold quantize_amount roundHalfUpInt
    rw [show (100004 / 1000 : ℚ) / (10 : ℚ) ^ (-(2 : ℤ)) = 50002 / 5 by
      rw [zpow_neg]
      norm_num]
    rw [if_pos (by norm_num : (0:ℚ) ≤ 50002 / 5)]
    rw [show (50002 / 5 : ℚ) + 1 / 2 = 100009 / 10 by norm_num]
    rw [show ⌊(100009 / 10 : ℚ)⌋ = 10000 from by norm_num [Int.floor_eq_iff]]
    rw [zpow_neg]
    norm_num
  · exact quantize_amount_closest (100004 / 1000 : ℚ) 2 (by norm_num) (by norm_num)

theorem string_append_left_ne_empty {p : String} (t : String) (h : p ≠ "") :
    p ++ t ≠ "" := by
  intro hc
  apply h
  have hd := congrArg String.data hc
  rw [String.data_append] at hd
  exact string_eq_of_data_eq (List.append_eq_nil.mp hd).1

theorem undoKeyStr_ne_empty (chat : ℤ) (msg : ℕ) : undoKeyStr chat msg ≠ "" :=
  string_append_left_ne_empty _
    (string_append_left_ne_empty _ (string_append_left_ne_empty _ (by decide)))

/-- First undo attempt under a fresh registry entry, a fresh ledger key and
an active account: exactly one reversing transaction is recorded, and the
key `undo:{chat_id}:{msg_id}` now dedups. -/
theorem cb_undo_applies
    (s : LedgerState) (reg : UndoRegistry) (c : ℕ) (chat : ℤ) (msg : ℕ)
    (code sign : String) (amount : ℚ) (acc : Account)
    (hsign : sign = "+" ∨ sign = "-")
    (hreg : reg.is_done (chat, msg) = false)
    (hmiss : findTxnByKey s c (undoKeyStr chat msg) = none)
    (hacc : findActiveAccount s c (to_upper code) = some acc) :
    ∃ S1 t, cb_undo s reg c chat msg code sign amount = (S1, reg.mark_done (chat, msg))
      ∧ S1.txns = s.txns ++ [t]
      ∧ dedupHit S1 c (some (undoKeyStr chat msg)) = some t := by
  have hk3 : undoKeyStr chat msg ≠ "" := undoKeyStr_ne_empty chat msg
  have hdd : dedupHit s c (some (undoKeyStr chat msg)) = none := by
    simp [dedupHit, hk3, hmiss]
  rcases hsign with rfl | rfl
  · have h1 := apply_delta_success hdd hacc (-amount)
    refine ⟨{ s with
        accounts := updateBalance s.accounts acc.id
          (quantize_amount (acc.balance + quantize_amount (-amount) (acc.precision.getD 2))
            (acc.precision.getD 2)),
        txns := s.txns ++
          [{ id := s.next_txn_id, client_id := c, account_id := acc.id,
             amount := quantize_amount (-amount) (acc.precision.getD 2),
             balance_after :=
               quantize_amount (acc.balance + quantize_amount (-amount) (acc.precision.getD 2))
                 (acc.precision.getD 2),
             idempotency_key := some (undoKeyStr chat msg) }],
        next_txn_id := s.next_txn_id + 1 },
      { id := s.next_txn_id, client_id := c, account_id := acc.id,
        amount := quantize_amount (-amount) (acc.precision.getD 2),
        balance_after :=
          quantize_amount (acc.balance + quantize_amount (-amount) (acc.precision.getD 2))
            (acc.precision.getD 2),
        idempotency_key := some (undoKeyStr chat msg) }, ?_, rfl, ?_⟩
    · simp only [cb_undo, withdraw, hreg, Bool.false_eq_true, if_false, if_true]
      rw [h1]
    · simp only [dedupHit, if_neg hk3]
      show (s.txns ++ [_]).find? _ = _
      exact find?_append_found hmiss (by simp)
  · have h1 := apply_delta_success hdd hacc amount
    refine ⟨{ s with
        accounts := updateBalance s.accounts acc.id
          (quantize_amount (acc.balance + quantize_amount amount (acc.precision.getD 2))
            (acc.precision.getD 2)),
        txns := s.txns ++
          [{ id := s.next_txn_id, client_id := c, account_id := acc.id,
             amount := quantize_amount amount (acc.precision.getD 2),
             balance_after :=
               quantize_amount (acc.balance + quantize_amount amount (acc.precision.getD 2))
                 (acc.precision.getD 2),
             idempotency_key := some (undoKeyStr chat msg) }],
        next_txn_id := s.next_txn_id + 1 },
      { id := s.next_txn_id, client_id := c, account_id := acc.id,
        amount := quantize_amount amount (acc.precision.getD 2),
        balance_after :=
          quantize_amount (acc.balance + quantize_amount amount (acc.precision.getD 2))
            (acc.precision.getD 2),
        idempotency_key := some (undoKeyStr chat msg) }, ?_, rfl, ?_⟩
    · simp only [cb_undo, deposit, hreg, Bool.false_eq_true, if_false, if_true]
      rw [if_neg (show ¬ ("-" : String) = "+" by decide), h1]
    · simp only [dedupHit, if_neg hk3]
      show (s.txns ++ [_]).find? _ = _
      exact find?_append_found hmiss (by simp)

/-- A later undo attempt on a ledger state whose key already dedups cannot
change the ledger, whatever the registry contains. -/
theorem cb_undo_dedup_noop
    (S1 : LedgerState) (reg2 : UndoRegistry) (c : ℕ) (chat : ℤ) (msg : ℕ)
    (code sign : String) (amount : ℚ) (t : Txn)
    (hsign : sign = "+" ∨ sign = "-")
    (hd2 : dedupHit S1 c (some (undoKeyStr chat msg)) = some t) :
    (cb_undo S1 reg2 c chat msg code sign amount).1 = S1 := by
  by_cases hdone : reg2.is_done (chat, msg) = true
  · simp only [cb_undo, hdone, if_true]
  · have hb : reg2.is_done (chat, msg) = false := by
      simpa using hdone
    rcases hsign with rfl | rfl
    · have h2 := apply_delta_dedup_hit hd2 code (-amount)
      simp only [cb_undo, withdraw, hb, Bool.false_eq_true, if_false, if_true]
      rw [h2]
    · have h2 := apply_delta_dedup_hit hd2 code amount
      simp only [cb_undo, deposit, hb, Bool.false_eq_true, if_false, if_true]
      rw [h2, if_neg (show ¬ ("-" : String) = "+" by decide)]

/-- C8: two sequential undo attempts on the same (chat id, message id) key
apply the reversing ledger delta exactly once.  The first attempt (fresh
registry entry, fresh ledger key, active account) records exactly one
transaction; the second attempt — under ANY registry state `reg2`, covering
both the `is_done` hit and a silently evicted registry — leaves the ledger
state untouched: either the registry gate stops it, or the ledger call
dedups on the key `undo:{chat_id}:{msg_id}`. -/
theorem undo_at_most_once
    (s : LedgerState) (reg reg2 : UndoRegistry) (c : ℕ) (chat : ℤ) (msg : ℕ)
    (code : String) (sign : String) (amount : ℚ) (acc : Account)
    (hsign : sign = "+" ∨ sign = "-")
    (hreg : reg.is_done (chat, msg) = false)
    (hmiss : findTxnByKey s c (undoKeyStr chat msg) = none)
    (hacc : findActiveAccount s c (to_upper code) = some acc) :
    (cb_undo s reg c chat msg code sign amount).1.txns.length = s.txns.length + 1 ∧
    (cb_undo (cb_undo s reg c chat msg code sign amount).1 reg2
        c chat msg code sign amount).1
      = (cb_undo s reg c chat msg code sign amount).1 := by
  obtain ⟨S1, t, hfirst, htxns, hd2⟩ :=
    cb_undo_applies s reg c chat msg code sign amount acc hsign hreg hmiss hacc
  rw [hfirst]
  constructor
  · show S1.txns.length = s.txns.length + 1
    rw [htxns]
    simp
  · show (cb_undo S1 reg2 c chat msg code sign amount).1 = S1
    exact cb_undo_dedup_noop S1 reg2 c chat msg code sign amount t hsign hd2

theorem undo_at_most_once_witness :
    (cb_undo stateA { seen := [], maxsize := 20000 } 1 5 9 "usd" "+" 2).1.txns.length
      = stateA.txns.length + 1 ∧
    (cb_undo (cb_undo stateA { seen := [], maxsize := 20000 } 1 5 9 "usd" "+" 2).1
        { seen := [], maxsize := 20000 } 1 5 9 "usd" "+" 2).1
      = (cb_undo stateA { seen := [], maxsize := 20000 } 1 5 9 "usd" "+" 2).1 :=
  undo_at_most_once stateA { seen := [], maxsize := 20000 }
    { seen := [], maxsize := 20000 } 1 5 9 "usd" "+" 2 accUSD
    (Or.inl rfl) rfl rfl rfl

/-- C3: in the Exchange Transaction Processor (`process`, step 6 with its
`except` block), when the recv leg succeeds (active account with quantized
balance, fresh keys) and the pay leg fails (no active pay account), a
compensating call with the exact inverse of the recv delta is issued under
the distinct idempotency key `idem_recv ++ ":undo"`: the settlement reports
failure, the recv-account balance equals its pre-call value (net zero),
exactly two transactions were recorded (the leg and its compensation, the
latter carrying the `:undo` key), and retrying the same settlement leaves
the state untouched — every call dedups, so it cannot double-compensate. -/
theorem settle_compensates_on_leg2_failure
    (s : LedgerState) (c : ℕ) (recv_code pay_code : String)
    (recv_amount pay_amount : ℚ) (rid pw : Bool)
    (idem_recv idem_pay : String) (acc : Account) (n : ℤ)
    (hacc : findActiveAccount s c (to_upper recv_code) = some acc)
    (hbal : acc.balance = (n : ℚ) * (10 : ℚ) ^ (-(acc.precision.getD 2)))
    (hpay : findActiveAccount s c (to_upper pay_code) = none)
    (hne_recv : idem_recv ≠ "") (hne_pay : idem_pay ≠ "")
    (hk_recv : findTxnByKey s c idem_recv = none)
    (hk_pay : findTxnByKey s c idem_pay = none)
    (hk_undo : findTxnByKey s c (idem_recv ++ ":undo") = none)
    (hd1 : idem_pay ≠ idem_recv) (hd2p : idem_pay ≠ idem_recv ++ ":undo") :
    (settle s c recv_code pay_code recv_amount pay_amount rid pw idem_recv idem_pay).2
        = .failed "account not found" ∧
    balanceOf (settle s c recv_code pay_code recv_amount pay_amount rid pw
        idem_recv idem_pay).1 c (to_upper recv_code) = some acc.balance ∧
    (settle s c recv_code pay_code recv_amount pay_amount rid pw
        idem_recv idem_pay).1.txns.length = s.txns.length + 2 ∧
    (∃ t ∈ (settle s c recv_code pay_code recv_amount pay_amount rid pw
        idem_recv idem_pay).1.txns,
        t.idempotency_key = some (idem_recv ++ ":undo")) ∧
    settle (settle s c recv_code pay_code recv_amount pay_amount rid pw
        idem_recv idem_pay).1 c recv_code pay_code recv_amount pay_amount rid pw
        idem_recv idem_pay
      = ((settle s c recv_code pay_code recv_amount pay_amount rid pw
          idem_recv idem_pay).1, .failed "account not found") := by
  have hrnu : idem_recv ≠ idem_recv ++ ":undo" :=
    string_ne_of_append_ne_self (by decide)
  have hu_ne : idem_recv ++ ":undo" ≠ "" :=
    string_append_ne_empty idem_recv (by decide)
  -- recv leg applies
  have hdd1 : dedupHit s c (some idem_recv) = none := by
    simp [dedupHit, hne_recv, hk_recv]
  have h1 := apply_delta_success hdd1 hacc (dirAmt rid recv_amount)
  set q1 := quantize_amount (dirAmt rid recv_amount) (acc.precision.getD 2) with hq1def
  set b1 := quantize_amount (acc.balance + q1) (acc.precision.getD 2) with hb1def
  obtain ⟨T1, hT1def⟩ : ∃ T1 : Txn, T1 =
      { id := s.next_txn_id, client_id := c, account_id := acc.id,
        amount := q1, balance_after := b1, idempotency_key := some idem_recv } :=
    ⟨_, rfl⟩
  rw [← hT1def] at h1
  obtain ⟨S1, hS1def⟩ : ∃ S1 : LedgerState, S1 =
      { s with accounts := updateBalance s.accounts acc.id b1,
               txns := s.txns ++ [T1],
               next_txn_id := s.next_txn_id + 1 } :=
    ⟨_, rfl⟩
  rw [← hS1def] at h1
  -- pay leg fails: fresh key, no active account
  have hfT1pay : findTxnByKey S1 c idem_pay = none :=
    findTxnByKey_grow_none c idem_pay (by rw [hS1def]) hk_pay
      (by rw [hT1def]; simp [beq_eq_false_iff_ne, Ne.symm hd1])
  have hdd2 : dedupHit S1 c (some idem_pay) = none := by
    simp [dedupHit, hne_pay, hfT1pay]
  have hpay1 : findActiveAccount S1 c (to_upper pay_code) = none := by
    rw [findActiveAccount_of_accounts acc.id b1 (by rw [hS1def]) c (to_upper pay_code),
      hpay]
    rfl
  have hleg2 := apply_delta_notfound hdd2 hpay1 (-(dirAmt pw pay_amount))
  -- the compensation applies: fresh :undo key, recv account still active
  have hfT1undo : findTxnByKey S1 c (idem_recv ++ ":undo") = none :=
    findTxnByKey_grow_none c _ (by rw [hS1def]) hk_undo
      (by rw [hT1def]; simp [beq_eq_false_iff_ne, hrnu])
  have hdd3 : dedupHit S1 c (some (idem_recv ++ ":undo")) = none := by
    simp [dedupHit, hu_ne, hfT1undo]
  have hacc1 : findActiveAccount S1 c (to_upper recv_code)
      = some { acc with balance := b1 } := by
    rw [findActiveAccount_of_accounts acc.id b1 (by rw [hS1def]) c (to_upper recv_code),
      hacc]
    simp
  have h3 := apply_delta_success hdd3 hacc1 (-(dirAmt rid recv_amount))
  dsimp only at h3
  -- the compensating delta is the exact inverse: balance returns to start
  have hneg : quantize_amount (-(dirAmt rid recv_amount)) (acc.precision.getD 2)
      = -q1 := by
    rw [quantize_neg, ← hq1def]
  have hb2 : quantize_amount
      (b1 + quantize_amount (-(dirAmt rid recv_amount)) (acc.precision.getD 2))
      (acc.precision.getD 2) = acc.balance := by
    rw [hneg]
    have hb1v : b1 = acc.balance + q1 := by
      rw [hb1def]
      obtain ⟨m, hm⟩ := quantize_isMultiple (dirAmt rid recv_amount) (acc.precision.getD 2)
      exact quantize_add_multiples n m hbal (by rw [hq1def]; exact hm)
    rw [hb1v, show acc.balance + q1 + -q1 = acc.balance by ring]
    exact quantize_eq_of_multiple n hbal
  rw [hb2, hneg] at h3
  obtain ⟨T3, hT3def⟩ : ∃ T3 : Txn, T3 =
      { id := S1.next_txn_id, client_id := c, account_id := acc.id,
        amount := -q1, balance_after := acc.balance,
        idempotency_key := some (idem_recv ++ ":undo") } :=
    ⟨_, rfl⟩
  rw [← hT3def] at h3
  obtain ⟨S2, hS2def⟩ : ∃ S2 : LedgerState, S2 =
      { S1 with accounts := updateBalance S1.accounts acc.id acc.balance,
                txns := S1.txns ++ [T3],
                next_txn_id := S1.next_txn_id + 1 } :=
    ⟨_, rfl⟩
  rw [← hS2def] at h3
  -- the whole settlement run
  have hsettle : settle s c recv_code pay_code recv_amount pay_amount rid pw
      idem_recv idem_pay = (S2, .failed "account not found") := by
    simp only [settle, dir_call, dir_call_opp, h1, hleg2, h3]
  -- the retry: every call dedups or fails identically, state unchanged
  have hS2txns : S2.txns = (s.txns ++ [T1]) ++ [T3] := by
    rw [hS2def, hS1def]
  have hf1r : findTxnByKey S2 c idem_recv = some T1 := by
    unfold findTxnByKey
    rw [hS2txns]
    exact find?_append_of_found (find?_append_found hk_recv (by rw [hT1def]; simp))
  have hdd1r : dedupHit S2 c (some idem_recv) = some T1 := by
    simp [dedupHit, hne_recv, hf1r]
  have hleg1r := apply_delta_dedup_hit hdd1r recv_code (dirAmt rid recv_amount)
  have hfpayr : findTxnByKey S2 c idem_pay = none := by
    unfold findTxnByKey
    rw [hS2txns]
    apply find?_append_none
    · exact find?_append_none hk_pay
        (by rw [hT1def]; simp [beq_eq_false_iff_ne, Ne.symm hd1])
    · rw [hT3def]
      simp [beq_eq_false_iff_ne, Ne.symm hd2p]
  have hdd2r : dedupHit S2 c (some idem_pay) = none := by
    simp [dedupHit, hne_pay, hfpayr]
  have hpayr : findActiveAccount S2 c (to_upper pay_code) = none := by
    rw [findActiveAccount_of_accounts acc.id acc.balance (by rw [hS2def])
      c (to_upper pay_code), hpay1]
    rfl
  have hleg2r := apply_delta_notfound hdd2r hpayr (-(dirAmt pw pay_amount))
  have hfundor : findTxnByKey S2 c (idem_recv ++ ":undo") = some T3 := by
    unfold findTxnByKey
    rw [hS2txns]
    apply find?_append_found
    · exact find?_append_none hk_undo
        (by rw [hT1def]; simp [beq_eq_false_iff_ne, hrnu])
    · rw [hT3def]
      simp
  have hdd3r : dedupHit S2 c (some (idem_recv ++ ":undo")) = some T3 := by
    simp [dedupHit, hu_ne, hfundor]
  have hcompr := apply_delta_dedup_hit hdd3r recv_code (-(dirAmt rid recv_amount))
  have hretry : settle S2 c recv_code pay_code recv_amount pay_amount rid pw
      idem_recv idem_pay = (S2, .failed "account not found") := by
    simp only [settle, dir_call, dir_call_opp, hleg1r, hleg2r, hcompr]
  rw [hsettle]
  refine ⟨rfl, ?_, ?_, ⟨T3, ?_, ?_⟩, ?_⟩
  · show balanceOf S2 c (to_upper recv_code) = some acc.balance
    unfold balanceOf
    rw [findActiveAccount_of_accounts acc.id acc.balance (by rw [hS2def])
      c (to_upper recv_code), hacc1]
    simp
  · show S2.txns.length = s.txns.length + 2
    rw [hS2txns]
    simp [List.length_append]
  · show T3 ∈ S2.txns
    rw [hS2txns]
    simp
  · rw [hT3def]
  · exact hretry

theorem settle_compensates_on_leg2_failure_witness :
    (settle stateA 1 "usd" "eur" 5 7 true true "k1" "k2").2
        = .failed "account not found" ∧
    balanceOf (settle stateA 1 "usd" "eur" 5 7 true true "k1" "k2").1
        1 (to_upper "usd") = some accUSD.balance ∧
    (settle stateA 1 "usd" "eur" 5 7 true true "k1" "k2").1.txns.length
        = stateA.txns.length + 2 ∧
    (∃ t ∈ (settle stateA 1 "usd" "eur" 5 7 true true "k1" "k2").1.txns,
        t.idempotency_key = some ("k1" ++ ":undo")) ∧
    settle (settle stateA 1 "usd" "eur" 5 7 true true "k1" "k2").1
        1 "usd" "eur" 5 7 true true "k1" "k2"
      = ((settle stateA 1 "usd" "eur" 5 7 true true "k1" "k2").1,
         .failed "account not found") :=
  settle_compensates_on_leg2_failure stateA 1 "usd" "eur" 5 7 true true
    "k1" "k2" accUSD 3 rfl (by norm_num [accUSD]) rfl (by decide) (by decide)
    rfl rfl rfl (by decide) (by decide)

/-- C4: with both leg currencies unchanged, the Edit-Delta Reconciler
computes `delta = new - old` per leg (the parsed old amount quantized at the
leg's precision), applies a positive delta in the leg's original direction
and the magnitude of a negative delta in the opposite direction, makes no
ledger call for a zero delta (transaction count grows only for nonzero
deltas), and each leg's account ends at exactly the balance that a single
apply of `(new - old)` in the leg's original direction would produce. -/
theorem apply_edit_delta_unchanged_currency
    (s : LedgerState) (c : ℕ)
    (old_recv_amt_raw old_pay_amt_raw : ℚ)
    (recv_code_new pay_code_new : String)
    (recv_amount_new pay_amount_new : ℚ)
    (recv_prec pay_prec : ℤ) (idemPref : String)
    (rid pw : Bool) (accR accP : Account) (nR nP : ℤ)
    (haccR : findActiveAccount s c (to_upper recv_code_new) = some accR)
    (haccP : findActiveAccount s c (to_upper pay_code_new) = some accP)
    (hids : accR.id ≠ accP.id)
    (hprecR : accR.precision.getD 2 = recv_prec)
    (hprecP : accP.precision.getD 2 = pay_prec)
    (hbalR : accR.balance = (nR : ℚ) * (10 : ℚ) ^ (-recv_prec))
    (hbalP : accP.balance = (nP : ℚ) * (10 : ℚ) ^ (-pay_prec))
    (hqR : quantize_amount recv_amount_new recv_prec = recv_amount_new)
    (hqP : quantize_amount pay_amount_new pay_prec = pay_amount_new)
    (hfresh : ∀ suffix : String, findTxnByKey s c (idemPref ++ suffix) = none) :
    (apply_edit_delta s c old_recv_amt_raw recv_code_new old_pay_amt_raw pay_code_new
        recv_code_new pay_code_new recv_amount_new pay_amount_new recv_prec pay_prec
        idemPref rid pw).2 = .ok true ∧
    balanceOf (apply_edit_delta s c old_recv_amt_raw recv_code_new old_pay_amt_raw
        pay_code_new recv_code_new pay_code_new recv_amount_new pay_amount_new
        recv_prec pay_prec idemPref rid pw).1 c (to_upper recv_code_new)
      = balanceOf (if rid then
            deposit s c recv_code_new
              (recv_amount_new - quantize_amount old_recv_amt_raw recv_prec) none
          else withdraw s c recv_code_new
              (recv_amount_new - quantize_amount old_recv_amt_raw recv_prec) none).1
          c (to_upper recv_code_new) ∧
    balanceOf (apply_edit_delta s c old_recv_amt_raw recv_code_new old_pay_amt_raw
        pay_code_new recv_code_new pay_code_new recv_amount_new pay_amount_new
        recv_prec pay_prec idemPref rid pw).1 c (to_upper pay_code_new)
      = balanceOf (if pw then
            withdraw s c pay_code_new
              (pay_amount_new - quantize_amount old_pay_amt_raw pay_prec) none
          else deposit s c pay_code_new
              (pay_amount_new - quantize_amount old_pay_amt_raw pay_prec) none).1
          c (to_upper pay_code_new) ∧
    (apply_edit_delta s c old_recv_amt_raw recv_code_new old_pay_amt_raw pay_code_new
        recv_code_new pay_code_new recv_amount_new pay_amount_new recv_prec pay_prec
        idemPref rid pw).1.txns.length
      = s.txns.length
        + ((if recv_amount_new - quantize_amount old_recv_amt_raw recv_prec = 0
            then 0 else 1)
          + (if pay_amount_new - quantize_amount old_pay_amt_raw pay_prec = 0
            then 0 else 1)) := by
  set dR := recv_amount_new - quantize_amount old_recv_amt_raw recv_prec with hdRdef
  set dP := pay_amount_new - quantize_amount old_pay_amt_raw pay_prec with hdPdef
  -- the deltas are multiples of the leg steps
  obtain ⟨mOR, hmOR⟩ := quantize_isMultiple old_recv_amt_raw recv_prec
  obtain ⟨mNR, hmNR0⟩ := quantize_isMultiple recv_amount_new recv_prec
  have hmNR : recv_amount_new = (mNR : ℚ) * (10 : ℚ) ^ (-recv_prec) := by
    rw [← hqR]
    exact hmNR0
  have hdRm : dR = ((mNR - mOR : ℤ) : ℚ) * (10 : ℚ) ^ (-recv_prec) := by
    rw [hdRdef, hmOR]
    rw [hmNR]
    push_cast
    ring
  obtain ⟨mOP, hmOP⟩ := quantize_isMultiple old_pay_amt_raw pay_prec
  obtain ⟨mNP, hmNP0⟩ := quantize_isMultiple pay_amount_new pay_prec
  have hmNP : pay_amount_new = (mNP : ℚ) * (10 : ℚ) ^ (-pay_prec) := by
    rw [← hqP]
    exact hmNP0
  have hdPm : dP = ((mNP - mOP : ℤ) : ℚ) * (10 : ℚ) ^ (-pay_prec) := by
    rw [hdPdef, hmOP]
    rw [hmNP]
    push_cast
    ring
  obtain ⟨mR2, hmR2⟩ := dirAmt_mult rid hdRm
  obtain ⟨mP2, hmP2⟩ := dirAmt_mult pw hdPm
  -- key bookkeeping
  have hfmtRp : idemPref ++ ":" ++ "delta+" ++ ":recv" = idemPref ++ ":delta+:recv" := by
    rw [String.append_assoc, String.append_assoc,
      show (":" ++ ("delta+" ++ ":recv") : String) = ":delta+:recv" by decide]
  have hfmtPp : idemPref ++ ":" ++ "delta+" ++ ":pay" = idemPref ++ ":delta+:pay" := by
    rw [String.append_assoc, String.append_assoc,
      show (":" ++ ("delta+" ++ ":pay") : String) = ":delta+:pay" by decide]
  have hdds : ∀ x : String, x ≠ "" → dedupHit s c (some (idemPref ++ x)) = none := by
    intro x hx
    simp [dedupHit, string_append_ne_empty idemPref hx, hfresh x]
  have hne_rp : (idemPref ++ ":" ++ "delta+" ++ ":recv") ≠ idemPref ++ ":delta+:pay" := by
    rw [hfmtRp]
    exact string_append_ne_of_ne _ (by decide)
  have hne_rm : (idemPref ++ ":" ++ "delta+" ++ ":recv") ≠ idemPref ++ ":delta-:pay" := by
    rw [hfmtRp]
    exact string_append_ne_of_ne _ (by decide)
  have hne_mp : (idemPref ++ ":delta-:recv") ≠ idemPref ++ ":delta+:pay" :=
    string_append_ne_of_ne _ (by decide)
  have hne_mm : (idemPref ++ ":delta-:recv") ≠ idemPref ++ ":delta-:pay" :=
    string_append_ne_of_ne _ (by decide)
  -- the reference single applies
  have hsingleR := apply_delta_clean (dirAmt rid dR) none recv_prec nR mR2 rfl
    haccR hprecR hbalR hmR2
  have hSR : balanceOf (if rid then deposit s c recv_code_new dR none
      else withdraw s c recv_code_new dR none).1 c (to_upper recv_code_new)
      = some (accR.balance + dirAmt rid dR) := by
    rw [dir_call, hsingleR]
    exact balanceOf_eq
      (findActiveAccount_update_self accR.id _ rfl c (to_upper recv_code_new) haccR rfl)
  have hsingleP := apply_delta_clean (-(dirAmt pw dP)) none pay_prec nP (-mP2) rfl
    haccP hprecP hbalP (neg_mult hmP2)
  have hSP : balanceOf (if pw then withdraw s c pay_code_new dP none
      else deposit s c pay_code_new dP none).1 c (to_upper pay_code_new)
      = some (accP.balance + -(dirAmt pw dP)) := by
    rw [dir_call_opp, hsingleP]
    exact balanceOf_eq
      (findActiveAccount_update_self accP.id _ rfl c (to_upper pay_code_new) haccP rfl)
  rcases lt_trichotomy dR 0 with hRneg | hRzero | hRpos
  · -- negative recv delta: magnitude applied in the opposite direction
    have hdd1R : dedupHit s c (some (idemPref ++ ":delta-:recv")) = none :=
      hdds ":delta-:recv" (by decide)
    have e1 := apply_delta_clean (dirAmt rid dR) (some (idemPref ++ ":delta-:recv"))
      recv_prec nR mR2 hdd1R haccR hprecR hbalR hmR2
    obtain ⟨T1, hT1⟩ : ∃ T1 : Txn, T1 =
        { id := s.next_txn_id, client_id := c, account_id := accR.id,
          amount := dirAmt rid dR, balance_after := accR.balance + dirAmt rid dR,
          idempotency_key := some (idemPref ++ ":delta-:recv") } := ⟨_, rfl⟩
    rw [← hT1] at e1
    obtain ⟨S1, hS1⟩ : ∃ S1 : LedgerState, S1 =
        { s with accounts := updateBalance s.accounts accR.id (accR.balance + dirAmt rid dR),
                 txns := s.txns ++ [T1],
                 next_txn_id := s.next_txn_id + 1 } := ⟨_, rfl⟩
    rw [← hS1] at e1
    have hS1acc : S1.accounts
        = updateBalance s.accounts accR.id (accR.balance + dirAmt rid dR) := by
      rw [hS1]
    have hS1txns : S1.txns = s.txns ++ [T1] := by rw [hS1]
    have haccR1 : findActiveAccount S1 c (to_upper recv_code_new)
        = some { accR with balance := accR.balance + dirAmt rid dR } :=
      findActiveAccount_update_self accR.id _ hS1acc c (to_upper recv_code_new) haccR rfl
    have haccP1 : findActiveAccount S1 c (to_upper pay_code_new) = some accP :=
      findActiveAccount_update_other accR.id _ hS1acc c (to_upper pay_code_new) haccP
        (Ne.symm hids)
    have hddp1 : dedupHit S1 c (some (idemPref ++ ":" ++ "delta+" ++ ":pay")) = none := by
      rw [hfmtPp]
      have hfind : findTxnByKey S1 c (idemPref ++ ":delta+:pay") = none :=
        findTxnByKey_grow_none c _ hS1txns (hfresh _)
          (by rw [hT1]; simp [beq_eq_false_iff_ne, hne_mp])
      simp [dedupHit, string_append_ne_empty idemPref
        (show (":delta+:pay" : String) ≠ "" by decide), hfind]
    have hddp2 : dedupHit S1 c (some (idemPref ++ ":delta-:pay")) = none := by
      have hfind : findTxnByKey S1 c (idemPref ++ ":delta-:pay") = none :=
        findTxnByKey_grow_none c _ hS1txns (hfresh _)
          (by rw [hT1]; simp [beq_eq_false_iff_ne, hne_mm])
      simp [dedupHit, string_append_ne_empty idemPref
        (show (":delta-:pay" : String) ≠ "" by decide), hfind]
    obtain ⟨S2, hpay_eq, hpay_bal, hpay_pres, hpay_len⟩ :=
      pay_branch_eval S1 c pay_code_new dP pay_prec idemPref pw accP nP mP2
        haccP1 hprecP hbalP hmP2 hddp1 hddp2
    have hE : apply_edit_delta s c old_recv_amt_raw recv_code_new old_pay_amt_raw
        pay_code_new recv_code_new pay_code_new recv_amount_new pay_amount_new
        recv_prec pay_prec idemPref rid pw = (S2, .ok true) := by
      simp only [apply_edit_delta, bne_self_eq_false, Bool.or_self, Bool.false_eq_true,
        if_false]
      simp only [← hdRdef, ← hdPdef]
      rw [if_neg (not_lt.mpr hRneg.le), if_pos hRneg, dir_call_opp, neg_dirAmt_neg, e1]
      simp only [legStep]
      exact hpay_eq
    rw [hE]
    have hpres := hpay_pres (to_upper recv_code_new) (by
      intro a ha
      rw [haccR1, Option.some.injEq] at ha
      subst ha
      exact hids)
    refine ⟨rfl, ?_, ?_, ?_⟩
    · rw [hSR]
      unfold balanceOf
      rw [hpres, haccR1]
      rfl
    · rw [hSP]
      exact hpay_bal
    · rw [hpay_len, hS1txns]
      rw [if_neg (ne_of_lt hRneg)]
      simp [List.length_append]
      omega
  · -- zero recv delta: no recv call at all
    obtain ⟨S2, hpay_eq, hpay_bal, hpay_pres, hpay_len⟩ :=
      pay_branch_eval s c pay_code_new dP pay_prec idemPref pw accP nP mP2
        haccP hprecP hbalP hmP2
        (by rw [hfmtPp]; exact hdds ":delta+:pay" (by decide))
        (hdds ":delta-:pay" (by decide))
    have hE : apply_edit_delta s c old_recv_amt_raw recv_code_new old_pay_amt_raw
        pay_code_new recv_code_new pay_code_new recv_amount_new pay_amount_new
        recv_prec pay_prec idemPref rid pw = (S2, .ok true) := by
      simp only [apply_edit_delta, bne_self_eq_false, Bool.or_self, Bool.false_eq_true,
        if_false]
      simp only [← hdRdef, ← hdPdef]
      rw [if_neg (not_lt.mpr hRzero.le), if_neg (by rw [hRzero]; exact lt_irrefl 0)]
      exact hpay_eq
    rw [hE]
    have hpres := hpay_pres (to_upper recv_code_new) (by
      intro a ha
      rw [haccR, Option.some.injEq] at ha
      subst ha
      exact hids)
    refine ⟨rfl, ?_, ?_, ?_⟩
    · rw [hSR, hRzero, dirAmt_zero, add_zero]
      unfold balanceOf
      rw [hpres, haccR]
      rfl
    · rw [hSP]
      exact hpay_bal
    · rw [hpay_len]
      rw [if_pos hRzero]
      omega
  · -- positive recv delta: applied in the original direction
    have hdd1R : dedupHit s c (some (idemPref ++ ":" ++ "delta+" ++ ":recv")) = none := by
      rw [hfmtRp]
      exact hdds ":delta+:recv" (by decide)
    have e1 := apply_delta_clean (dirAmt rid dR)
      (some (idemPref ++ ":" ++ "delta+" ++ ":recv"))
      recv_prec nR mR2 hdd1R haccR hprecR hbalR hmR2
    obtain ⟨T1, hT1⟩ : ∃ T1 : Txn, T1 =
        { id := s.next_txn_id, client_id := c, account_id := accR.id,
          amount := dirAmt rid dR, balance_after := accR.balance + dirAmt rid dR,
          idempotency_key := some (idemPref ++ ":" ++ "delta+" ++ ":recv") } := ⟨_, rfl⟩
    rw [← hT1] at e1
    obtain ⟨S1, hS1⟩ : ∃ S1 : LedgerState, S1 =
        { s with accounts := updateBalance s.accounts accR.id (accR.balance + dirAmt rid dR),
                 txns := s.txns ++ [T1],
                 next_txn_id := s.next_txn_id + 1 } := ⟨_, rfl⟩
    rw [← hS1] at e1
    have hS1acc : S1.accounts
        = updateBalance s.accounts accR.id (accR.balance + dirAmt rid dR) := by
      rw [hS1]
    have hS1txns : S1.txns = s.txns ++ [T1] := by rw [hS1]
    have haccR1 : findActiveAccount S1 c (to_upper recv_code_new)
        = some { accR with balance := accR.balance + dirAmt rid dR } :=
      findActiveAccount_update_self accR.id _ hS1acc c (to_upper recv_code_new) haccR rfl
    have haccP1 : findActiveAccount S1 c (to_upper pay_code_new) = some accP :=
      findActiveAccount_update_other accR.id _ hS1acc c (to_upper pay_code_new) haccP
        (Ne.symm hids)
    have hddp1 : dedupHit S1 c (some (idemPref ++ ":" ++ "delta+" ++ ":pay")) = none := by
      rw [hfmtPp]
      have hfind : findTxnByKey S1 c (idemPref ++ ":delta+:pay") = none :=
        findTxnByKey_grow_none c _ hS1txns (hfresh _)
          (by rw [hT1]; simp [beq_eq_false_iff_ne, hne_rp])
      simp [dedupHit, string_append_ne_empty idemPref
        (show (":delta+:pay" : String) ≠ "" by decide), hfind]
    have hddp2 : dedupHit S1 c (some (idemPref ++ ":delta-:pay")) = none := by
      have hfind : findTxnByKey S1 c (idemPref ++ ":delta-:pay") = none :=
        findTxnByKey_grow_none c _ hS1txns (hfresh _)
          (by rw [hT1]; simp [beq_eq_false_iff_ne, hne_rm])
      simp [dedupHit, string_append_ne_empty idemPref
        (show (":delta-:pay" : String) ≠ "" by decide), hfind]
    obtain ⟨S2, hpay_eq, hpay_bal, hpay_pres, hpay_len⟩ :=
      pay_branch_eval S1 c pay_code_new dP pay_prec idemPref pw accP nP mP2
        haccP1 hprecP hbalP hmP2 hddp1 hddp2
    have hE : apply_edit_delta s c old_recv_amt_raw recv_code_new old_pay_amt_raw
        pay_code_new recv_code_new pay_code_new recv_amount_new pay_amount_new
        recv_prec pay_prec idemPref rid pw = (S2, .ok true) := by
      simp only [apply_edit_delta, bne_self_eq_false, Bool.or_self, Bool.false_eq_true,
        if_false]
      simp only [← hdRdef, ← hdPdef]
      rw [if_pos hRpos, dir_call, e1]
      simp only [legStep]
      exact hpay_eq
    rw [hE]
    have hpres := hpay_pres (to_upper recv_code_new) (by
      intro a ha
      rw [haccR1, Option.some.injEq] at ha
      subst ha
      exact hids)
    refine ⟨rfl, ?_, ?_, ?_⟩
    · rw [hSR]
      unfold balanceOf
      rw [hpres, haccR1]
      rfl
    · rw [hSP]
      exact hpay_bal
    · rw [hpay_len, hS1txns]
      rw [if_neg (ne_of_gt hRpos)]
      simp [List.length_append]
      omega

theorem apply_edit_delta_unchanged_currency_witness :
    (apply_edit_delta stateC 1 4 "usd" 6 "eur" "usd" "eur" 9 2 0 0
        "e1" true true).2 = .ok true ∧
    balanceOf (apply_edit_delta stateC 1 4 "usd" 6 "eur" "usd" "eur" 9 2 0 0
        "e1" true true).1 1 (to_upper "usd")
      = balanceOf (if true then
            deposit stateC 1 "usd" (9 - quantize_amount 4 0) none
          else withdraw stateC 1 "usd" (9 - quantize_amount 4 0) none).1
          1 (to_upper "usd") ∧
    balanceOf (apply_edit_delta stateC 1 4 "usd" 6 "eur" "usd" "eur" 9 2 0 0
        "e1" true true).1 1 (to_upper "eur")
      = balanceOf (if true then
            withdraw stateC 1 "eur" (2 - quantize_amount 6 0) none
          else deposit stateC 1 "eur" (2 - quantize_amount 6 0) none).1
          1 (to_upper "eur") ∧
    (apply_edit_delta stateC 1 4 "usd" 6 "eur" "usd" "eur" 9 2 0 0
        "e1" true true).1.txns.length
      = stateC.txns.length
        + ((if (9 : ℚ) - quantize_amount 4 0 = 0 then 0 else 1)
          + (if (2 : ℚ) - quantize_amount 6 0 = 0 then 0 else 1)) :=
  apply_edit_delta_unchanged_currency stateC 1 4 6 "usd" "eur" 9 2 0 0 "e1"
    true true accUSD accEUR 3 10 rfl rfl (by decide) rfl rfl
    (by norm_num [accUSD]) (by norm_num [accEUR])
    (by simpa using quantize_amount_eq_self_of_int 9 0)
    (by simpa using quantize_amount_eq_self_of_int 2 0)
    (fun _ => rfl)

/-- C5: with a changed currency on either leg, the Edit-Delta Reconciler
performs exactly four apply calls, each with its own idempotency key suffix
(`revert:recv`, `revert:pay`, `apply:recv`, `apply:pay`): a reversal of each
original leg (inverse of its original direction, old quantized amount, old
currency) followed by a fresh application of each new leg (original
direction, new amount, new currency).  Afterwards each old-currency balance
has moved by exactly the inverse of its original leg and each new-currency
balance by exactly the new leg. -/
theorem apply_edit_delta_changed_currency
    (s : LedgerState) (c : ℕ)
    (old_recv_amt_raw old_pay_amt_raw : ℚ)
    (old_recv_code old_pay_code recv_code_new pay_code_new : String)
    (recv_amount_new pay_amount_new : ℚ)
    (recv_prec pay_prec : ℤ) (idemPref : String)
    (rid pw : Bool) (accOR accOP accNR accNP : Account)
    (nOR nOP nNR nNP : ℤ)
    (hcond : old_recv_code ≠ recv_code_new ∨ old_pay_code ≠ pay_code_new)
    (haccOR : findActiveAccount s c (to_upper old_recv_code) = some accOR)
    (haccOP : findActiveAccount s c (to_upper old_pay_code) = some accOP)
    (haccNR : findActiveAccount s c (to_upper recv_code_new) = some accNR)
    (haccNP : findActiveAccount s c (to_upper pay_code_new) = some accNP)
    (hid21 : accOP.id ≠ accOR.id) (hid31 : accNR.id ≠ accOR.id)
    (hid32 : accNR.id ≠ accOP.id) (hid41 : accNP.id ≠ accOR.id)
    (hid42 : accNP.id ≠ accOP.id) (hid43 : accNP.id ≠ accNR.id)
    (hpOR : accOR.precision.getD 2 = recv_prec)
    (hpOP : accOP.precision.getD 2 = pay_prec)
    (hpNR : accNR.precision.getD 2 = recv_prec)
    (hpNP : accNP.precision.getD 2 = pay_prec)
    (hbOR : accOR.balance = (nOR : ℚ) * (10 : ℚ) ^ (-recv_prec))
    (hbOP : accOP.balance = (nOP : ℚ) * (10 : ℚ) ^ (-pay_prec))
    (hbNR : accNR.balance = (nNR : ℚ) * (10 : ℚ) ^ (-recv_prec))
    (hbNP : accNP.balance = (nNP : ℚ) * (10 : ℚ) ^ (-pay_prec))
    (hqR : quantize_amount recv_amount_new recv_prec = recv_amount_new)
    (hqP : quantize_amount pay_amount_new pay_prec = pay_amount_new)
    (hfresh : ∀ suffix : String, findTxnByKey s c (idemPref ++ suffix) = none) :
    (apply_edit_delta s c old_recv_amt_raw old_recv_code old_pay_amt_raw old_pay_code
        recv_code_new pay_code_new recv_amount_new pay_amount_new recv_prec pay_prec
        idemPref rid pw).2 = .ok true ∧
    balanceOf (apply_edit_delta s c old_recv_amt_raw old_recv_code old_pay_amt_raw
        old_pay_code recv_code_new pay_code_new recv_amount_new pay_amount_new
        recv_prec pay_prec idemPref rid pw).1 c (to_upper old_recv_code)
      = some (accOR.balance - dirAmt rid (quantize_amount old_recv_amt_raw recv_prec)) ∧
    balanceOf (apply_edit_delta s c old_recv_amt_raw old_recv_code old_pay_amt_raw
        old_pay_code recv_code_new pay_code_new recv_amount_new pay_amount_new
        recv_prec pay_prec idemPref rid pw).1 c (to_upper old_pay_code)
      = some (accOP.balance + dirAmt pw (quantize_amount old_pay_amt_raw pay_prec)) ∧
    balanceOf (apply_edit_delta s c old_recv_amt_raw old_recv_code old_pay_amt_raw
        old_pay_code recv_code_new pay_code_new recv_amount_new pay_amount_new
        recv_prec pay_prec idemPref rid pw).1 c (to_upper recv_code_new)
      = some (accNR.balance + dirAmt rid recv_amount_new) ∧
    balanceOf (apply_edit_delta s c old_recv_amt_raw old_recv_code old_pay_amt_raw
        old_pay_code recv_code_new pay_code_new recv_amount_new pay_amount_new
        recv_prec pay_prec idemPref rid pw).1 c (to_upper pay_code_new)
      = some (accNP.balance - dirAmt pw pay_amount_new) ∧
    (∃ t1 t2 t3 t4 : Txn,
      (apply_edit_delta s c old_recv_amt_raw old_recv_code old_pay_amt_raw old_pay_code
          recv_code_new pay_code_new recv_amount_new pay_amount_new recv_prec pay_prec
          idemPref rid pw).1.txns = s.txns ++ [t1, t2, t3, t4] ∧
      t1.idempotency_key = some (idemPref ++ ":revert:recv") ∧
      t2.idempotency_key = some (idemPref ++ ":revert:pay") ∧
      t3.idempotency_key = some (idemPref ++ ":apply:recv") ∧
      t4.idempotency_key = some (idemPref ++ ":apply:pay")) := by
  -- multiples of the step for all four effective deltas
  obtain ⟨mOR, hmOR⟩ := quantize_isMultiple old_recv_amt_raw recv_prec
  obtain ⟨m1, hm1⟩ := dirAmt_mult rid hmOR
  obtain ⟨mOP, hmOP⟩ := quantize_isMultiple old_pay_amt_raw pay_prec
  obtain ⟨m2, hm2⟩ := dirAmt_mult pw hmOP
  obtain ⟨mNR, hmNR0⟩ := quantize_isMultiple recv_amount_new recv_prec
  have hmNR : recv_amount_new = (mNR : ℚ) * (10 : ℚ) ^ (-recv_prec) := by
    rw [← hqR]
    exact hmNR0
  obtain ⟨m3, hm3⟩ := dirAmt_mult rid hmNR
  obtain ⟨mNP, hmNP0⟩ := quantize_isMultiple pay_amount_new pay_prec
  have hmNP : pay_amount_new = (mNP : ℚ) * (10 : ℚ) ^ (-pay_prec) := by
    rw [← hqP]
    exact hmNP0
  obtain ⟨m4, hm4⟩ := dirAmt_mult pw hmNP
  -- key bookkeeping
  have hfmtAr : idemPref ++ ":" ++ "apply" ++ ":recv" = idemPref ++ ":apply:recv" := by
    rw [String.append_assoc, String.append_assoc,
      show (":" ++ ("apply" ++ ":recv") : String) = ":apply:recv" by decide]
  have hfmtAp : idemPref ++ ":" ++ "apply" ++ ":pay" = idemPref ++ ":apply:pay" := by
    rw [String.append_assoc, String.append_assoc,
      show (":" ++ ("apply" ++ ":pay") : String) = ":apply:pay" by decide]
  have hdds : ∀ x : String, x ≠ "" → dedupHit s c (some (idemPref ++ x)) = none := by
    intro x hx
    simp [dedupHit, string_append_ne_empty idemPref hx, hfresh x]
  have ne12 : (idemPref ++ ":revert:recv") ≠ idemPref ++ ":revert:pay" :=
    string_append_ne_of_ne _ (by decide)
  have ne13 : (idemPref ++ ":revert:recv") ≠ idemPref ++ ":apply:recv" :=
    string_append_ne_of_ne _ (by decide)
  have ne23 : (idemPref ++ ":revert:pay") ≠ idemPref ++ ":apply:recv" :=
    string_append_ne_of_ne _ (by decide)
  have ne14 : (idemPref ++ ":revert:recv") ≠ idemPref ++ ":apply:pay" :=
    string_append_ne_of_ne _ (by decide)
  have ne24 : (idemPref ++ ":revert:pay") ≠ idemPref ++ ":apply:pay" :=
    string_append_ne_of_ne _ (by decide)
  have ne34 : (idemPref ++ ":" ++ "apply" ++ ":recv") ≠ idemPref ++ ":apply:pay" := by
    rw [hfmtAr]
    exact string_append_ne_of_ne _ (by decide)
  -- call 1: revert the old recv leg
  have hdd1 : dedupHit s c (some (idemPref ++ ":revert:recv")) = none :=
    hdds ":revert:recv" (by decide)
  have e1 := apply_delta_clean
    (-(dirAmt rid (quantize_amount old_recv_amt_raw recv_prec)))
    (some (idemPref ++ ":revert:recv")) recv_prec nOR (-m1)
    hdd1 haccOR hpOR hbOR (neg_mult hm1)
  obtain ⟨T1, hT1⟩ : ∃ T1 : Txn, T1 =
      { id := s.next_txn_id, client_id := c, account_id := accOR.id,
        amount := -(dirAmt rid (quantize_amount old_recv_amt_raw recv_prec)),
        balance_after := accOR.balance
          + -(dirAmt rid (quantize_amount old_recv_amt_raw recv_prec)),
        idempotency_key := some (idemPref ++ ":revert:recv") } := ⟨_, rfl⟩
  rw [← hT1] at e1
  obtain ⟨S1, hS1⟩ : ∃ S1 : LedgerState, S1 =
      { s with accounts := updateBalance s.accounts accOR.id (accOR.balance + -(dirAmt rid (quantize_amount old_recv_amt_raw recv_prec))),
               txns := s.txns ++ [T1],
               next_txn_id := s.next_txn_id + 1 } := ⟨_, rfl⟩
  rw [← hS1] at e1
  have hS1acc : S1.accounts = updateBalance s.accounts accOR.id
      (accOR.balance + -(dirAmt rid (quantize_amount old_recv_amt_raw recv_prec))) := by
    rw [hS1]
  have hS1txns : S1.txns = s.txns ++ [T1] := by rw [hS1]
  -- call 2: revert the old pay leg
  have haccOP1 : findActiveAccount S1 c (to_upper old_pay_code) = some accOP :=
    findActiveAccount_update_other accOR.id _ hS1acc c (to_upper old_pay_code)
      haccOP hid21
  have hfind2 : findTxnByKey S1 c (idemPref ++ ":revert:pay") = none :=
    findTxnByKey_grow_none c _ hS1txns (hfresh _)
      (by rw [hT1]; simp [beq_eq_false_iff_ne, ne12])
  have hdd2 : dedupHit S1 c (some (idemPref ++ ":revert:pay")) = none := by
    simp [dedupHit, string_append_ne_empty idemPref
      (show (":revert:pay" : String) ≠ "" by decide), hfind2]
  have e2 := apply_delta_clean
    (dirAmt pw (quantize_amount old_pay_amt_raw pay_prec))
    (some (idemPref ++ ":revert:pay")) pay_prec nOP m2
    hdd2 haccOP1 hpOP hbOP hm2
  obtain ⟨T2, hT2⟩ : ∃ T2 : Txn, T2 =
      { id := S1.next_txn_id, client_id := c, account_id := accOP.id,
        amount := dirAmt pw (quantize_amount old_pay_amt_raw pay_prec),
        balance_after := accOP.balance
          + dirAmt pw (quantize_amount old_pay_amt_raw pay_prec),
        idempotency_key := some (idemPref ++ ":revert:pay") } := ⟨_, rfl⟩
  rw [← hT2] at e2
  obtain ⟨S2, hS2⟩ : ∃ S2 : LedgerState, S2 =
      { S1 with accounts := updateBalance S1.accounts accOP.id (accOP.balance + dirAmt pw (quantize_amount old_pay_amt_raw pay_prec)),
                txns := S1.txns ++ [T2],
                next_txn_id := S1.next_txn_id + 1 } := ⟨_, rfl⟩
  rw [← hS2] at e2
  have hS2acc : S2.accounts = updateBalance S1.accounts accOP.id
      (accOP.balance + dirAmt pw (quantize_amount old_pay_amt_raw pay_prec)) := by
    rw [hS2]
  have hS2txns : S2.txns = S1.txns ++ [T2] := by rw [hS2]
  -- call 3: apply the new recv leg
  have haccNR1 : findActiveAccount S1 c (to_upper recv_code_new) = some accNR :=
    findActiveAccount_update_other accOR.id _ hS1acc c (to_upper recv_code_new)
      haccNR hid31
  have haccNR2 : findActiveAccount S2 c (to_upper recv_code_new) = some accNR :=
    findActiveAccount_update_other accOP.id _ hS2acc c (to_upper recv_code_new)
      haccNR1 hid32
  have hfind3a : findTxnByKey S1 c (idemPref ++ ":apply:recv") = none :=
    findTxnByKey_grow_none c _ hS1txns (hfresh _)
      (by rw [hT1]; simp [beq_eq_false_iff_ne, ne13])
  have hfind3 : findTxnByKey S2 c (idemPref ++ ":apply:recv") = none :=
    findTxnByKey_grow_none c _ hS2txns hfind3a
      (by rw [hT2]; simp [beq_eq_false_iff_ne, ne23])
  have hdd3 : dedupHit S2 c (some (idemPref ++ ":" ++ "apply" ++ ":recv")) = none := by
    rw [hfmtAr]
    simp [dedupHit, string_append_ne_empty idemPref
      (show (":apply:recv" : String) ≠ "" by decide), hfind3]
  have e3 := apply_delta_clean (dirAmt rid recv_amount_new)
    (some (idemPref ++ ":" ++ "apply" ++ ":recv")) recv_prec nNR m3
    hdd3 haccNR2 hpNR hbNR hm3
  obtain ⟨T3, hT3⟩ : ∃ T3 : Txn, T3 =
      { id := S2.next_txn_id, client_id := c, account_id := accNR.id,
        amount := dirAmt rid recv_amount_new,
        balance_after := accNR.balance + dirAmt rid recv_amount_new,
        idempotency_key := some (idemPref ++ ":" ++ "apply" ++ ":recv") } := ⟨_, rfl⟩
  rw [← hT3] at e3
  obtain ⟨S3, hS3⟩ : ∃ S3 : LedgerState, S3 =
      { S2 with accounts := updateBalance S2.accounts accNR.id (accNR.balance + dirAmt rid recv_amount_new),
                txns := S2.txns ++ [T3],
                next_txn_id := S2.next_txn_id + 1 } := ⟨_, rfl⟩
  rw [← hS3] at e3
  have hS3acc : S3.accounts = updateBalance S2.accounts accNR.id
      (accNR.balance + dirAmt rid recv_amount_new) := by
    rw [hS3]
  have hS3txns : S3.txns = S2.txns ++ [T3] := by rw [hS3]
  -- call 4: apply the new pay leg
  have haccNP1 : findActiveAccount S1 c (to_upper pay_code_new) = some accNP :=
    findActiveAccount_update_other accOR.id _ hS1acc c (to_upper pay_code_new)
      haccNP hid41
  have haccNP2 : findActiveAccount S2 c (to_upper pay_code_new) = some accNP :=
    findActiveAccount_update_other accOP.id _ hS2acc c (to_upper pay_code_new)
      haccNP1 hid42
  have haccNP3 : findActiveAccount S3 c (to_upper pay_code_new) = some accNP :=
    findActiveAccount_update_other accNR.id _ hS3acc c (to_upper pay_code_new)
      haccNP2 hid43
  have hfind4a : findTxnByKey S1 c (idemPref ++ ":apply:pay") = none :=
    findTxnByKey_grow_none c _ hS1txns (hfresh _)
      (by rw [hT1]; simp [beq_eq_false_iff_ne, ne14])
  have hfind4b : findTxnByKey S2 c (idemPref ++ ":apply:pay") = none :=
    findTxnByKey_grow_none c _ hS2txns hfind4a
      (by rw [hT2]; simp [beq_eq_false_iff_ne, ne24])
  have hfind4 : findTxnByKey S3 c (idemPref ++ ":apply:pay") = none :=
    findTxnByKey_grow_none c _ hS3txns hfind4b
      (by rw [hT3]; simp [beq_eq_false_iff_ne, ne34])
  have hdd4 : dedupHit S3 c (some (idemPref ++ ":" ++ "apply" ++ ":pay")) = none := by
    rw [hfmtAp]
    simp [dedupHit, string_append_ne_empty idemPref
      (show (":apply:pay" : String) ≠ "" by decide), hfind4]
  have e4 := apply_delta_clean (-(dirAmt pw pay_amount_new))
    (some (idemPref ++ ":" ++ "apply" ++ ":pay")) pay_prec nNP (-m4)
    hdd4 haccNP3 hpNP hbNP (neg_mult hm4)
  obtain ⟨T4, hT4⟩ : ∃ T4 : Txn, T4 =
      { id := S3.next_txn_id, client_id := c, account_id := accNP.id,
        amount := -(dirAmt pw pay_amount_new),
        balance_after := accNP.balance + -(dirAmt pw pay_amount_new),
        idempotency_key := some (idemPref ++ ":" ++ "apply" ++ ":pay") } := ⟨_, rfl⟩
  rw [← hT4] at e4
  obtain ⟨S4, hS4⟩ : ∃ S4 : LedgerState, S4 =
      { S3 with accounts := updateBalance S3.accounts accNP.id (accNP.balance + -(dirAmt pw pay_amount_new)),
                txns := S3.txns ++ [T4],
                next_txn_id := S3.next_txn_id + 1 } := ⟨_, rfl⟩
  rw [← hS4] at e4
  have hS4acc : S4.accounts = updateBalance S3.accounts accNP.id
      (accNP.balance + -(dirAmt pw pay_amount_new)) := by
    rw [hS4]
  have hS4txns : S4.txns = S3.txns ++ [T4] := by rw [hS4]
  -- assemble the whole run
  have htrue : (old_recv_code != recv_code_new || old_pay_code != pay_code_new) = true := by
    rcases hcond with h | h <;> simp [bne_iff_ne, h]
  have hE : apply_edit_delta s c old_recv_amt_raw old_recv_code old_pay_amt_raw
      old_pay_code recv_code_new pay_code_new recv_amount_new pay_amount_new
      recv_prec pay_prec idemPref rid pw = (S4, .ok true) := by
    simp only [apply_edit_delta, htrue, if_true]
    simp only [dir_call, dir_call_opp]
    rw [e1]
    simp only [legStep]
    rw [e2]
    simp only [legStep]
    rw [e3]
    simp only [legStep]
    rw [e4]
  rw [hE]
  have hfinal_OR : findActiveAccount S4 c (to_upper old_recv_code)
      = some { accOR with balance := accOR.balance + -(dirAmt rid (quantize_amount old_recv_amt_raw recv_prec)) } :=
    findActiveAccount_update_other accNP.id _ hS4acc c (to_upper old_recv_code)
      (findActiveAccount_update_other accNR.id _ hS3acc c (to_upper old_recv_code)
        (findActiveAccount_update_other accOP.id _ hS2acc c (to_upper old_recv_code)
          (findActiveAccount_update_self accOR.id _ hS1acc c (to_upper old_recv_code)
            haccOR rfl)
          (Ne.symm hid21))
        (Ne.symm hid31))
      (Ne.symm hid41)
  have hfinal_OP : findActiveAccount S4 c (to_upper old_pay_code)
      = some { accOP with balance := accOP.balance + dirAmt pw (quantize_amount old_pay_amt_raw pay_prec) } :=
    findActiveAccount_update_other accNP.id _ hS4acc c (to_upper old_pay_code)
      (findActiveAccount_update_other accNR.id _ hS3acc c (to_upper old_pay_code)
        (findActiveAccount_update_self accOP.id _ hS2acc c (to_upper old_pay_code)
          (findActiveAccount_update_other accOR.id _ hS1acc c (to_upper old_pay_code)
            haccOP hid21)
          rfl)
        (Ne.symm hid32))
      (Ne.symm hid42)
  have hfinal_NR : findActiveAccount S4 c (to_upper recv_code_new)
      = some { accNR with balance := accNR.balance + dirAmt rid recv_amount_new } :=
    findActiveAccount_update_other accNP.id _ hS4acc c (to_upper recv_code_new)
      (findActiveAccount_update_self accNR.id _ hS3acc c (to_upper recv_code_new)
        haccNR2 rfl)
      (Ne.symm hid43)
  have hfinal_NP : findActiveAccount S4 c (to_upper pay_code_new)
      = some { accNP with balance := accNP.balance + -(dirAmt pw pay_amount_new) } :=
    findActiveAccount_update_self accNP.id _ hS4acc c (to_upper pay_code_new)
      haccNP3 rfl
  refine ⟨rfl, ?_, ?_, ?_, ?_, T1, T2, T3, T4, ?_, ?_, ?_, ?_, ?_⟩
  · rw [sub_eq_add_neg]
    exact balanceOf_eq hfinal_OR
  · exact balanceOf_eq hfinal_OP
  · exact balanceOf_eq hfinal_NR
  · rw [sub_eq_add_neg]
    exact balanceOf_eq hfinal_NP
  · rw [hS4txns, hS3txns, hS2txns, hS1txns]
    simp
  · rw [hT1]
  · rw [hT2]
  · rw [hT3, hfmtAr]
  · rw [hT4, hfmtAp]

theorem apply_edit_delta_changed_currency_witness :
    (apply_edit_delta stateD 1 4 "usd" 6 "eur" "gbp" "jpy" 9 2 0 0
        "e2" true true).2 = .ok true ∧
    balanceOf (apply_edit_delta stateD 1 4 "usd" 6 "eur" "gbp" "jpy" 9 2 0 0
        "e2" true true).1 1 (to_upper "usd")
      = some (accUSD.balance - dirAmt true (quantize_amount 4 0)) ∧
    balanceOf (apply_edit_delta stateD 1 4 "usd" 6 "eur" "gbp" "jpy" 9 2 0 0
        "e2" true true).1 1 (to_upper "eur")
      = some (accEUR.balance + dirAmt true (quantize_amount 6 0)) ∧
    balanceOf (apply_edit_delta stateD 1 4 "usd" 6 "eur" "gbp" "jpy" 9 2 0 0
        "e2" true true).1 1 (to_upper "gbp")
      = some (accGBP.balance + dirAmt true 9) ∧
    balanceOf (apply_edit_delta stateD 1 4 "usd" 6 "eur" "gbp" "jpy" 9 2 0 0
        "e2" true true).1 1 (to_upper "jpy")
      = some (accJPY.balance - dirAmt true 2) ∧
    (∃ t1 t2 t3 t4 : Txn,
      (apply_edit_delta stateD 1 4 "usd" 6 "eur" "gbp" "jpy" 9 2 0 0
          "e2" true true).1.txns = stateD.txns ++ [t1, t2, t3, t4] ∧
      t1.idempotency_key = some ("e2" ++ ":revert:recv") ∧
      t2.idempotency_key = some ("e2" ++ ":revert:pay") ∧
      t3.idempotency_key = some ("e2" ++ ":apply:recv") ∧
      t4.idempotency_key = some ("e2" ++ ":apply:pay")) :=
  apply_edit_delta_changed_currency stateD 1 4 6 "usd" "eur" "gbp" "jpy" 9 2 0 0
    "e2" true true accUSD accEUR accGBP accJPY 3 10 20 30
    (Or.inl (by decide)) rfl rfl rfl rfl
    (by decide) (by decide) (by decide) (by decide) (by decide) (by decide)
    rfl rfl rfl rfl
    (by norm_num [accUSD]) (by norm_num [accEUR])
    (by norm_num [accGBP]) (by norm_num [accJPY])
    (by simpa using quantize_amount_eq_self_of_int 9 0)
    (by simpa using quantize_amount_eq_self_of_int 2 0)
    (fun _ => rfl)

/-- C9 counterexample: `ensure_client` is not the upsert the spec describes.
For a stored soft-deleted client (`is_active = false`) with city `"B"`, a call
passing the unchanged name and the EMPTY city string `""` overwrites the
stored city with the empty value (the code's guard is `city is not None`, not
non-emptiness) and leaves `is_active = false`: no reactivation ever happens,
since the UPDATE touches only `name` and `city`. -/
theorem ensure_client_overwrites_empty_city_no_reactivation :
    (ensure_client stateCl 10 "A" (some "")).1.clients
      = [{ id := 1, chat_id := 10, name := "A", city := some "",
           is_active := false }] ∧
    (ensure_client stateCl 10 "A" (some "")).2 = 1 := by
  constructor <;> rfl

/-- C9 (amended): `ensure_client` is an upsert that never touches accounts,
transactions, or any client's `is_active` flag (no reactivation).  For an
existing row (matched on `chat_id` with no `is_active` filter) it returns the
row's id; it rewrites the row exactly when the passed name is non-empty and
differs, OR the passed city is non-`None` (even empty) and differs — in which
case both the passed name and the `COALESCE`d city are written; otherwise the
state is unchanged.  For an unknown `chat_id` it creates an active client and
returns the fresh id. -/
theorem ensure_client_upsert (s : LedgerState) (chat_id : ℤ) (name : String)
    (city : Option String) :
    (ensure_client s chat_id name city).1.accounts = s.accounts ∧
    (ensure_client s chat_id name city).1.txns = s.txns ∧
    (∀ row : Client, s.clients.find? (fun c => c.chat_id == chat_id) = some row →
      (ensure_client s chat_id name city).2 = row.id ∧
      ((ensure_client s chat_id name city).1.clients.map fun c =>
          (c.id, c.chat_id, c.is_active))
        = (s.clients.map fun c => (c.id, c.chat_id, c.is_active)) ∧
      (¬ ((name ≠ "" ∧ row.name ≠ name) ∨ (city.isSome = true ∧ row.city ≠ city)) →
        (ensure_client s chat_id name city).1 = s) ∧
      (((name ≠ "" ∧ row.name ≠ name) ∨ (city.isSome = true ∧ row.city ≠ city)) →
        (ensure_client s chat_id name city).1.clients
          = s.clients.map fun c =>
              if c.id == row.id then
                { c with name := name, city := if city.isSome then city else c.city }
              else c)) ∧
    (s.clients.find? (fun c => c.chat_id == chat_id) = none →
      (ensure_client s chat_id name city).2 = s.next_client_id ∧
      (ensure_client s chat_id name city).1.clients
        = s.clients ++ [{ id := s.next_client_id, chat_id := chat_id,
                          name := name, city := city, is_active := true }]) := by
  cases hfind : s.clients.find? (fun c => c.chat_id == chat_id) with
  | none =>
    refine ⟨?_, ?_, ?_, ?_⟩
    · simp only [ensure_client, hfind]
    · simp only [ensure_client, hfind]
    · intro row hrow
      exact Option.noConfusion hrow
    · intro _
      constructor
      · simp only [ensure_client, hfind]
      · simp only [ensure_client, hfind]
  | some row =>
    have hiff : (((name != "" && row.name != name)
          || (city.isSome && row.city != city)) = true)
        ↔ ((name ≠ "" ∧ row.name ≠ name) ∨ (city.isSome = true ∧ row.city ≠ city)) := by
      simp [bne_iff_ne]
    by_cases hP : (name ≠ "" ∧ row.name ≠ name) ∨ (city.isSome = true ∧ row.city ≠ city)
    · have hc : ((name != "" && row.name != name)
          || (city.isSome && row.city != city)) = true := hiff.mpr hP
      refine ⟨?_, ?_, ?_, ?_⟩
      · simp only [ensure_client, hfind, hc, if_true]
      · simp only [ensure_client, hfind, hc, if_true]
      · intro row2 hrow2
        injection hrow2 with h
        subst h
        refine ⟨?_, ?_, ?_, ?_⟩
        · simp only [ensure_client, hfind, hc, if_true]
        · simp only [ensure_client, hfind, hc, if_true]
          rw [List.map_map]
          congr 1
          funext c
          simp only [Function.comp]
          by_cases hcid : (c.id == row.id) = true
          · rw [if_pos hcid]
          · rw [if_neg hcid]
        · intro hne
          exact absurd hP hne
        · intro _
          simp only [ensure_client, hfind, hc, if_true]
          congr 1
          funext c
          by_cases hcid : (c.id == row.id) = true
          · rw [if_pos hcid, if_pos hcid]
            cases city with
            | none => simp
            | some v => simp
          · rw [if_neg hcid, if_neg hcid]
      · intro hnone
        exact Option.noConfusion hnone
    · have hc : ¬ (((name != "" && row.name != name)
          || (city.isSome && row.city != city)) = true) := fun h => hP (hiff.mp h)
      refine ⟨?_, ?_, ?_, ?_⟩
      · simp only [ensure_client, hfind, if_neg hc]
      · simp only [ensure_client, hfind, if_neg hc]
      · intro row2 hrow2
        injection hrow2 with h
        subst h
        refine ⟨?_, ?_, ?_, ?_⟩
        · simp only [ensure_client, hfind, if_neg hc]
        · simp only [ensure_client, hfind, if_neg hc]
        · intro _
          simp only [ensure_client, hfind, if_neg hc]
        · intro hP2
          exact absurd hP2 hP
      · intro hnone
        exact Option.noConfusion hnone

theorem ensure_client_upsert_witness :
    (ensure_client stateCl 10 "A" (some "")).1.accounts = stateCl.accounts ∧
    (ensure_client stateCl 10 "A" (some "")).2 = 1 ∧
    ((ensure_client stateCl 10 "A" (some "")).1.clients.map fun c =>
        (c.id, c.chat_id, c.is_active))
      = (stateCl.clients.map fun c => (c.id, c.chat_id, c.is_active)) := by
  obtain ⟨ha, ht, hrow, hnone⟩ := ensure_client_upsert stateCl 10 "A" (some "")
  obtain ⟨hid, hmap, hnoop, hupd⟩ := hrow clientCEx rfl
  exact ⟨ha, hid, hmap⟩

end SkyEx